import Mathlib

/-!
Verification development for the MSCCL++ lowering backend
(`msccl/language/mscclpp/ir.py`): a shallow embedding of `ir_to_json` and
`dump_to_json`, and proofs about buffer-size inference, channel allocation,
dependency simplification, synchronization lowering and serialization.

The data model (Program, Gpu, Threadblock, Op, ChunkRef, Channel,
Instruction, Buffer, ChannelType) lives in `msccl/language/types.py`, which
is not part of the sources; those carrier types are modelled from the
design document (sections 3 and 6).  All transformation logic is translated
directly from `msccl/language/mscclpp/ir.py`.
-/

namespace MscclppIR

/-- Modelled from the spec (section 3): buffer kinds of a chunk reference. -/
inductive Buffer where
  | input
  | output
  | scratch
deriving DecidableEq, Repr

/-- Modelled from the spec (section 3): channel kinds.  The serialized tag of
the fourth kind is the string "none" (compared literally in the code). -/
inductive ChannelType where
  | sm
  | proxy
  | nvls
  | none
deriving DecidableEq, Repr

/-- Modelled from the spec (section 4): the closed instruction enumeration,
exactly the kinds named by `msccl/language/mscclpp/ir.py`. -/
inductive Instruction where
  | put
  | put_packet
  | put_with_signal
  | put_with_signal_and_flush
  | get
  | signal
  | flush
  | wait
  | copy
  | copy_packet
  | transform_to_packet
  | reduce
  | reduce_packet
  | reduce_send
  | reduce_send_packet
  | read_reduce_copy
  | read_reduce_copy_send
  | group_load_reduce
  | group_load_reduce_store
  | group_store
  | nop
  | barrier
deriving DecidableEq, Repr

/-- Modelled from the spec (section 3): a chunk reference
(owning rank, buffer kind, start index, length). -/
structure ChunkRef where
  rank : Nat
  buffer : Buffer
  index : Nat
  size : Nat
deriving DecidableEq, Repr

/-- Modelled from the spec (section 3): the connection target of a channel is
one rank for ordinary channels and a list of ranks for multicast (nvls)
channels. -/
inductive ConnTarget where
  | single (r : Nat)
  | multi (rs : List Nat)
deriving DecidableEq, Repr

/-- Modelled from the spec (section 3): a channel declared by a threadblock. -/
structure Channel where
  srcBuffer : Buffer
  dstBuffer : Buffer
  type : ChannelType
  connected_to : ConnTarget
deriving DecidableEq, Repr

/-- Modelled from the spec (section 6): dependency lists are direct object
references to other ops.  A reference is modelled by the unique identity
`uid` of the referenced op together with its (immutable) instruction kind,
which is the only referenced-op field the simplification passes read. -/
structure Dep where
  uid : Nat
  inst : Instruction
deriving DecidableEq, Repr

/-- Modelled from the spec (section 3): one instruction.  `step` and `tb` are
assigned by the renumbering pass; `cnt` models the element-count method
`Op.cnt()`; `extra_tb_list` and `extra_barrier_id` model the kind-specific
extra metadata read by the barrier serialization. -/
structure Op where
  uid : Nat
  inst : Instruction
  rank : Int
  src : ChunkRef
  dst : ChunkRef
  srcs : List ChunkRef
  dsts : List ChunkRef
  depends : List Dep
  channel_type : ChannelType
  step : Int
  tb : Int
  cnt : Nat
  extra_tb_list : List Int
  extra_barrier_id : Int
deriving DecidableEq, Repr

/-- Keys of the per-device channel table: (source buffer, destination buffer,
channel kind), as in line 93 of `mscclpp/ir.py`. -/
abbrev ChanKey := Buffer × Buffer × ChannelType

/-- Entries of the per-device channel table: (owning threadblock id,
connection target), as in lines 95-97 of `mscclpp/ir.py`. -/
abbrev ChanEntry := Int × ConnTarget

/-- Modelled from the spec (section 3): an execution unit inside a device.
A negative `id` marks a placeholder block excluded from output. -/
structure Threadblock where
  id : Int
  channel : Int
  channels : List Channel
  ops : List Op
deriving DecidableEq, Repr

/-- Modelled from the spec (section 3): one participating device.  The
`channels` table is derived by the channel allocator; it is an association
list in insertion order, mirroring the Python dict. -/
structure Gpu where
  rank : Nat
  input_chunks : Nat
  output_chunks : Nat
  scratch_chunks : Nat
  threadblocks : List Threadblock
  channels : List (ChanKey × List ChanEntry)
deriving DecidableEq, Repr

/-- Modelled from the spec (sections 3 and 6): the top-level program. -/
structure Program where
  name : String
  collective : String
  protocol : String
  inplace : Bool
  num_chunk_groups : Nat
  num_threads_per_block : Nat
  use_double_scratch_buffer : Bool
  min_message_size : Nat
  max_message_size : Nat
  gpus : List Gpu
deriving DecidableEq, Repr

/-- The set `_local_src_insts_mscclpp` of `mscclpp/ir.py` (lines 9-25). -/
def local_src_insts_mscclpp : List Instruction :=
  [.put, .put_packet, .signal, .flush, .put_with_signal,
   .put_with_signal_and_flush, .copy, .copy_packet, .transform_to_packet,
   .reduce, .reduce_packet, .reduce_send, .reduce_send_packet,
   .group_load_reduce_store, .group_store]

/-- The set `_local_dst_insts_mscclpp` of `mscclpp/ir.py` (lines 26-40). -/
def local_dst_insts_mscclpp : List Instruction :=
  [.get, .wait, .read_reduce_copy, .copy, .copy_packet,
   .transform_to_packet, .reduce, .read_reduce_copy_send, .reduce_send,
   .reduce_packet, .reduce_send_packet, .group_load_reduce_store,
   .group_load_reduce]

/-- The set `_insts_no_need_sync_barrier` of `mscclpp/ir.py` (lines 42-47). -/
def insts_no_need_sync_barrier : List Instruction :=
  [.copy_packet, .reduce_packet, .reduce_send_packet, .barrier]

/-- Maximum of a list of naturals, 0 on the empty list. -/
def listMax (l : List Nat) : Nat := l.foldr max 0

/-- The (key, index + size) contributions one op makes to `buffer_sizes`
(lines 55-73 of `mscclpp/ir.py`), for the device of rank `rank`. -/
def op_buffer_updates (rank : Nat) (op : Op) : List ((Nat × Buffer) × Nat) :=
  (if op.inst ∈ local_src_insts_mscclpp then
    ((rank, op.src.buffer), op.src.index + op.src.size) ::
      op.srcs.map (fun s => ((rank, s.buffer), s.index + s.size))
   else []) ++
  (if op.inst ∈ local_dst_insts_mscclpp then
    ((rank, op.dst.buffer), op.dst.index + op.dst.size) ::
      (if op.inst ≠ .read_reduce_copy_send ∧ op.inst ≠ .reduce_send ∧
          op.inst ≠ .reduce_send_packet then
        op.dsts.map (fun d => ((rank, d.buffer), d.index + d.size))
       else [])
   else [])

/-- One `buffer_sizes[key] = max(buffer_sizes[key], v)` update of the
defaultdict (modelled as a total function with default 0). -/
def bump (f : Nat × Buffer → Nat) (kv : (Nat × Buffer) × Nat) :
    Nat × Buffer → Nat :=
  fun k => if k = kv.1 then max (f kv.1) kv.2 else f k

/-- All updates applied to `buffer_sizes`, in program order
(lines 53-73 of `mscclpp/ir.py`). -/
def program_updates (p : Program) : List ((Nat × Buffer) × Nat) :=
  p.gpus.flatMap (fun g =>
    g.threadblocks.flatMap (fun tb =>
      tb.ops.flatMap (op_buffer_updates g.rank)))

/-- The finished `buffer_sizes` defaultdict (lines 52-73 of
`mscclpp/ir.py`). -/
def buffer_sizes (p : Program) : Nat × Buffer → Nat :=
  (program_updates p).foldl bump (fun _ => 0)

/-- Lines 74-77 of `mscclpp/ir.py`: refine every device capacity to the
maximum of the inferred requirement and the declared value. -/
def infer_buffer_sizes (p : Program) : Program :=
  let bs := buffer_sizes p
  { p with gpus := p.gpus.map (fun g =>
      { g with
        input_chunks := max (bs (g.rank, .input)) g.input_chunks
        output_chunks := max (bs (g.rank, .output)) g.output_chunks
        scratch_chunks := max (bs (g.rank, .scratch)) g.scratch_chunks }) }

/-- Lines 79-84 of `mscclpp/ir.py`: under the LL protocol every device gets
the maximum scratch capacity.  (On an empty device list the Python `max`
would raise; the claims below only concern nonempty device lists, where this
total model agrees with the code.) -/
def apply_ll_scratch (p : Program) : Program :=
  if p.protocol = "LL" then
    let m := listMax (p.gpus.map (·.scratch_chunks))
    { p with gpus := p.gpus.map (fun g => { g with scratch_chunks := m }) }
  else p

/-- Ordering used by `sorted(gpu.threadblocks, key=lambda tb: tb.id)`
(line 88 of `mscclpp/ir.py`). -/
def tbLe (a b : Threadblock) : Prop := a.id ≤ b.id

instance : DecidableRel tbLe := fun a b => by
  unfold tbLe
  infer_instance

/-- Python lexicographic comparison of lists of integers (shorter prefixes
compare smaller). -/
def natListLeB : List Nat → List Nat → Bool
  | [], _ => true
  | _ :: _, [] => false
  | a :: as, b :: bs => if a < b then true else if b < a then false else natListLeB as bs

/-- Python comparison of connection targets, as used when sorting channel
table entries.  Ordinary targets compare as integers, multicast targets
lexicographically; the mixed case (which Python would reject with a
TypeError, and which cannot arise under one channel-table key) is given a
fixed order to keep the model total. -/
def connLeB : ConnTarget → ConnTarget → Bool
  | .single a, .single b => a ≤ b
  | .single _, .multi _ => true
  | .multi _, .single _ => false
  | .multi a, .multi b => natListLeB a b

/-- Python comparison of `(tb.id, connected_to)` pairs, the sort key of
line 99 of `mscclpp/ir.py`. -/
def chanEntryLeB (x y : ChanEntry) : Bool :=
  if x.1 < y.1 then true else if y.1 < x.1 then false else connLeB x.2 y.2

def chanEntryLe (x y : ChanEntry) : Prop := chanEntryLeB x y = true

instance : DecidableRel chanEntryLe := fun x y => by
  unfold chanEntryLe
  infer_instance

/-- The channel declarations contributed by one threadblock, keyed as in
line 93 of `mscclpp/ir.py`. -/
def tb_chan_decls (tb : Threadblock) : List (ChanKey × ChanEntry) :=
  tb.channels.map (fun ch =>
    ((ch.srcBuffer, ch.dstBuffer, ch.type), (tb.id, ch.connected_to)))

/-- One insertion into `chan_dict` (lines 94-97 of `mscclpp/ir.py`): append
to the list of an existing key, or add a new key at the end. -/
def add_chan_decl : List (ChanKey × List ChanEntry) → ChanKey × ChanEntry →
    List (ChanKey × List ChanEntry)
  | [], kv => [(kv.1, [kv.2])]
  | (k, vs) :: rest, kv =>
    if k = kv.1 then (k, vs ++ [kv.2]) :: rest
    else (k, vs) :: add_chan_decl rest kv

/-- Lines 87-100 of `mscclpp/ir.py` for one device: sort threadblocks by id,
collect declared channels into the keyed table, and sort the list under each
key by `(tb.id, connected_to)`. -/
def build_channels_gpu (g : Gpu) : Gpu :=
  let tbs := List.insertionSort tbLe g.threadblocks
  let dict := (tbs.flatMap tb_chan_decls).foldl add_chan_decl []
  { g with
    threadblocks := tbs
    channels := dict.map (fun kv => (kv.1, List.insertionSort chanEntryLe kv.2)) }

/-- Lines 86-100 of `mscclpp/ir.py` over the whole program. -/
def build_channels (p : Program) : Program :=
  { p with gpus := p.gpus.map build_channels_gpu }

/-- Lines 102-107 of `mscclpp/ir.py` for one op list: a wait op drops its
dependencies on signal ops. -/
def filter_wait_deps_tb (ops : List Op) : List Op :=
  ops.map (fun op =>
    if op.inst = .wait then
      { op with depends := op.depends.filter (fun dep => dep.inst ≠ .signal) }
    else op)

/-- Lines 109-117 of `mscclpp/ir.py` for one op list: drop every dependency
already present in the running set and add the kept dependencies of each op
to the running set. -/
def filter_redundant_aux (running : List Dep) : List Op → List Op
  | [] => []
  | op :: rest =>
    let kept := op.depends.filter (fun dep => dep ∉ running)
    { op with depends := kept } :: filter_redundant_aux (running ++ kept) rest

/-- Lines 102-107 of `mscclpp/ir.py` over the whole program. -/
def filter_wait_deps (p : Program) : Program :=
  { p with gpus := p.gpus.map (fun g =>
      { g with threadblocks := g.threadblocks.map (fun tb =>
          { tb with ops := filter_wait_deps_tb tb.ops }) }) }

/-- Lines 109-117 of `mscclpp/ir.py` over the whole program. -/
def filter_redundant (p : Program) : Program :=
  { p with gpus := p.gpus.map (fun g =>
      { g with threadblocks := g.threadblocks.map (fun tb =>
          { tb with ops := filter_redundant_aux [] tb.ops }) }) }

/-- A placeholder chunk reference standing for the Python `None` arguments of
the synthesized no-op (its chunk fields are never read). -/
def dummyChunk : ChunkRef := { rank := 0, buffer := .input, index := 0, size := 0 }

/-- The synthesized no-op `Op(Instruction.nop, -1, None, None, [])` of
line 129 of `mscclpp/ir.py`, carrying the given dependency list.  Fresh
no-ops are never the target of a dependency reference, so they share the
reserved identity 0. -/
def mkNop (deps : List Dep) : Op :=
  { uid := 0, inst := .nop, rank := -1, src := dummyChunk, dst := dummyChunk,
    srcs := [], dsts := [], depends := deps, channel_type := .none,
    step := -1, tb := -1, cnt := 0, extra_tb_list := [], extra_barrier_id := 0 }

/-- The dependencies of an op that survive the barrier exemption of
lines 130-133 of `mscclpp/ir.py`. -/
def nonBarrierDeps (op : Op) : List Dep :=
  op.depends.filter (fun dep => dep.inst ≠ .barrier)

/-- Whether an instruction is a no-op or barrier marker, the test of
lines 134-136 of `mscclpp/ir.py`. -/
def isMarkerInst (i : Instruction) : Bool :=
  i = .nop ∨ i = .barrier

/-- Lines 121-141 of `mscclpp/ir.py` for one op list, written with the
accumulator holding `new_ops` in reverse (its head is `new_ops[-1]`). -/
def expand_rev (acc : List Op) : List Op → List Op
  | [] => acc
  | op :: rest =>
    if op.inst ∈ insts_no_need_sync_barrier then
      expand_rev (op :: acc) rest
    else
      let nd := nonBarrierDeps op
      match acc with
      | prev :: accTail =>
        if isMarkerInst prev.inst then
          expand_rev (op :: { prev with depends := prev.depends ++ nd } :: accTail) rest
        else if nd.isEmpty then
          expand_rev (op :: prev :: accTail) rest
        else
          expand_rev (op :: mkNop nd :: prev :: accTail) rest
      | [] =>
        if nd.isEmpty then expand_rev [op] rest
        else expand_rev [op, mkNop nd] rest

/-- The no-op expansion pass on one op list. -/
def expand_tb (ops : List Op) : List Op := (expand_rev [] ops).reverse

/-- Closed-form companion of the expansion pass: how one op is emitted.  A
marker op (no-op or barrier) absorbs the surviving dependencies of the next
op when that op needs synchronization; every other op is emitted
unchanged. -/
def emitOp (op : Op) (next : Option Op) : Op :=
  if isMarkerInst op.inst then
    match next with
    | some n =>
      if n.inst ∈ insts_no_need_sync_barrier then op
      else { op with depends := op.depends ++ nonBarrierDeps n }
    | none => op
  else op

/-- Closed-form companion of the expansion pass: the fresh no-op marker
emitted just before an op, present exactly when the op needs
synchronization, the previously emitted op is not a marker, and some
dependency survives the barrier exemption. -/
def freshMarker (prevM : Bool) (op : Op) : List Op :=
  if op.inst ∈ insts_no_need_sync_barrier then []
  else if prevM then []
  else if (nonBarrierDeps op).isEmpty then []
  else [mkNop (nonBarrierDeps op)]

/-- Closed-form companion of the expansion pass, processing the op list with
a flag telling whether the previously emitted op is a marker. -/
def expandSpecGo (prevM : Bool) : List Op → List Op
  | [] => []
  | op :: rest =>
    freshMarker prevM op ++ emitOp op rest.head? :: expandSpecGo (isMarkerInst op.inst) rest

/-- Closed form of the expansion pass (proved equal to `expand_tb` below). -/
def expandSpec (ops : List Op) : List Op := expandSpecGo false ops

/-- Lines 119-141 of `mscclpp/ir.py` over the whole program. -/
def expand_nops (p : Program) : Program :=
  { p with gpus := p.gpus.map (fun g =>
      { g with threadblocks := g.threadblocks.map (fun tb =>
          { tb with ops := expand_tb tb.ops }) }) }

/-- Lines 143-148 of `mscclpp/ir.py` for one threadblock: set each op step to
its final position and its owning threadblock id. -/
def renumber_tb (tb : Threadblock) : Threadblock :=
  { tb with ops := tb.ops.enum.map (fun iop =>
      { iop.2 with step := Int.ofNat iop.1, tb := tb.id }) }

/-- Lines 143-148 of `mscclpp/ir.py` over the whole program. -/
def renumber_ops (p : Program) : Program :=
  { p with gpus := p.gpus.map (fun g =>
      { g with threadblocks := g.threadblocks.map renumber_tb }) }

/-- The whole in-place transformation pipeline of `ir_to_json`
(lines 50-148 of `mscclpp/ir.py`), before serialization.  The `nchannels`
computation of lines 150-156 is dead code (its result is unused) and is
omitted. -/
def lower_program (p : Program) : Program :=
  renumber_ops (expand_nops (filter_redundant (filter_wait_deps
    (build_channels (apply_ll_scratch (infer_buffer_sizes p))))))

/-- A JSON-like document value, the shape of what `dump_to_json` builds
before `json.dumps` renders it (the final string rendering is not
modelled). -/
inductive JValue where
  | null : JValue
  | str : String → JValue
  | num : Int → JValue
  | bool : Bool → JValue
  | arr : List JValue → JValue
  | obj : List (String × JValue) → JValue
deriving Repr

/-- Error-propagating map over a list, modelling a Python loop in which an
iteration may raise: the first raise aborts the whole computation. -/
def mapE (f : α → Except String β) : List α → Except String (List β)
  | [] => .ok []
  | a :: as =>
    match f a with
    | .error e => .error e
    | .ok b =>
      match mapE f as with
      | .error e => .error e
      | .ok bs => .ok (b :: bs)

/-- Whether an `Except` result is a success. -/
def exceptIsOk : Except String α → Bool
  | .ok _ => true
  | .error _ => false

/-- Modelled from the spec: the serialized tag of each buffer kind (the
`Buffer` enum values of `msccl/language/types.py`, not under src). -/
def Buffer.value : Buffer → String
  | .input => "i"
  | .output => "o"
  | .scratch => "s"

/-- Modelled from the spec: the serialized tag of each channel kind; the code
compares the tags "nvls" and "none" literally. -/
def ChannelType.value : ChannelType → String
  | .sm => "sm"
  | .proxy => "proxy"
  | .nvls => "nvls"
  | .none => "none"

/-- Modelled from the spec: the serialized name of each instruction kind (the
enum values of `msccl/language/types.py`, not under src); the claims only
need the mapping to be injective. -/
def Instruction.value : Instruction → String
  | .put => "put"
  | .put_packet => "ppkt"
  | .put_with_signal => "pws"
  | .put_with_signal_and_flush => "pwsf"
  | .get => "get"
  | .signal => "signal"
  | .flush => "flush"
  | .wait => "wait"
  | .copy => "copy"
  | .copy_packet => "cpkt"
  | .transform_to_packet => "tpkt"
  | .reduce => "re"
  | .reduce_packet => "rpkt"
  | .reduce_send => "rs"
  | .reduce_send_packet => "rspkt"
  | .read_reduce_copy => "rrc"
  | .read_reduce_copy_send => "rrcs"
  | .group_load_reduce => "glre"
  | .group_load_reduce_store => "glres"
  | .group_store => "gstore"
  | .nop => "nop"
  | .barrier => "barrier"

/-- The per-threadblock channel object built in lines 235-245 of
`mscclpp/ir.py` (fields `srcbuff`, `dstbuff`, `type`, `chanIds`,
`connectedTo`). -/
structure TbChan where
  srcbuff : String
  dstbuff : String
  type : String
  chanIds : List Nat
  connectedTo : List ConnTarget
deriving DecidableEq, Repr

/-- First-match lookup in the per-threadblock channel dict; `none` models the
Python KeyError on a missing key. -/
def lookupTbChan (d : List (ChanKey × TbChan)) (k : ChanKey) : Option TbChan :=
  match d with
  | [] => Option.none
  | kv :: rest => if kv.1 = k then some kv.2 else lookupTbChan rest k

/-- Python set equality of two rank lists. -/
def eqAsSet (a b : List Nat) : Bool :=
  a.all (fun x => decide (x ∈ b)) && b.all (fun x => decide (x ∈ a))

/-- The nvls arm of `get_channel_ids` (lines 166-172 of `mscclpp/ir.py`):
enumerate the connection targets and keep the ids whose rank set equals the
rank set of the chunk list.  An ordinary (single-rank) target under an nvls
key makes Python raise a TypeError inside `set(ele)`. -/
def nvls_channel_ids (ranks : List Nat) : List (Nat × ConnTarget) →
    Except String (List JValue)
  | [] => .ok []
  | ide :: rest =>
    match ide.2 with
    | .single _ => .error "TypeError: int object is not iterable"
    | .multi rs =>
      match nvls_channel_ids ranks rest with
      | .error e => .error e
      | .ok tail =>
        .ok (if eqAsSet rs ranks then
              JValue.obj [("id", .num (Int.ofNat ide.1))] :: tail
             else tail)

/-- The helper `get_channel_ids` of `dump_to_json` (lines 163-182 of
`mscclpp/ir.py`).  A missing key in the threadblock channel dict is the
Python KeyError and aborts serialization; a present key with no matching
connection target yields an empty id list. -/
def get_channel_ids (chunk_list : List ChunkRef) (tbd : List (ChanKey × TbChan))
    (srcB dstB : Buffer) (ct : ChannelType) : Except String (List JValue) :=
  match lookupTbChan tbd (srcB, dstB, ct) with
  | Option.none => .error "KeyError"
  | some entry =>
    if ct = ChannelType.nvls then
      nvls_channel_ids (chunk_list.map (·.rank)) entry.connectedTo.enum
    else
      .ok (chunk_list.flatMap (fun c =>
        entry.connectedTo.enum.filterMap (fun ide =>
          match ide.2 with
          | .single r =>
            if r = c.rank then
              some (JValue.obj [("id", .num (Int.ofNat ide.1)),
                                ("off", .num (Int.ofNat c.index))])
            else Option.none
          | .multi _ => Option.none)))

/-- The helper `remove_empty_fields` of `dump_to_json` (lines 184-185 of
`mscclpp/ir.py`): drop fields whose value is None, the empty string, the
empty list or the empty object. -/
def isEmptyJ : JValue → Bool
  | .null => true
  | .str s => s = ""
  | .arr l => l.isEmpty
  | .obj l => l.isEmpty
  | _ => false

def remove_empty_fields (l : List (String × JValue)) : List (String × JValue) :=
  l.filter (fun kv => !(isEmptyJ kv.2))

/-- The `i_buff`/`o_buff` descriptor objects. -/
def jbuff : Option (String × String) → JValue
  | Option.none => .null
  | some sd => .obj [("src", .str sd.1), ("dst", .str sd.2)]

def jOptRank : Option ChunkRef → JValue
  | Option.none => .null
  | some c => .num (Int.ofNat c.rank)

def jOptBuff : Option ChunkRef → JValue
  | Option.none => .null
  | some c => .str c.buffer.value

def jOptOff : Option ChunkRef → JValue
  | Option.none => .null
  | some c => .num (Int.ofNat c.index)

/-- The operand objects built by the `srcs`/`dsts` list comprehensions. -/
def chunk_objs (l : List ChunkRef) : List JValue :=
  l.map (fun x => JValue.obj [("buff", .str x.buffer.value),
                              ("off", .num (Int.ofNat x.index))])

/-- The generic instruction record of lines 341-358 of `mscclpp/ir.py`,
already passed through `remove_empty_fields`. -/
def instrFields (op : Op) (i_buff o_buff : Option (String × String))
    (src_ids dst_ids : List JValue) (srcs dsts : List JValue)
    (src dst : Option ChunkRef) : JValue :=
  JValue.obj (remove_empty_fields [
    ("name", .str op.inst.value),
    ("i_buff", jbuff i_buff),
    ("i_cids", .arr src_ids),
    ("o_buff", jbuff o_buff),
    ("o_cids", .arr dst_ids),
    ("src", jOptRank src),
    ("srcs", if srcs.isEmpty then .null else .arr srcs),
    ("dsts", if dsts.isEmpty then .null else .arr dsts),
    ("srcbuff", jOptBuff src),
    ("srcoff", jOptOff src),
    ("dst", jOptRank dst),
    ("dstbuff", jOptBuff dst),
    ("dstoff", jOptOff dst),
    ("ctype", .str op.channel_type.value),
    ("cnt", .num (Int.ofNat op.cnt))])

/-- The per-instruction branch chain of `dump_to_json` (lines 248-359 of
`mscclpp/ir.py`), producing one serialized op record.  `env` resolves a
dependency reference to the final `(tb, step)` fields of the referenced op
(in Python the reference is an object pointer and those fields are read
directly). -/
def serialize_op (env : Nat → Int × Int) (tbd : List (ChanKey × TbChan))
    (op : Op) : Except String JValue :=
  if op.inst = .signal ∨ op.inst = .flush then
    match get_channel_ids op.dsts tbd op.src.buffer op.dst.buffer op.channel_type with
    | .error e => .error e
    | .ok dst_ids =>
      .ok (instrFields op Option.none (some (op.src.buffer.value, op.dst.buffer.value))
        [] dst_ids [] [] Option.none Option.none)
  else if op.inst = .wait then
    match get_channel_ids op.srcs tbd op.src.buffer op.dst.buffer op.channel_type with
    | .error e => .error e
    | .ok src_ids =>
      .ok (instrFields op (some (op.src.buffer.value, op.dst.buffer.value)) Option.none
        src_ids [] [] [] Option.none Option.none)
  else if op.inst = .read_reduce_copy then
    match get_channel_ids op.srcs tbd op.src.buffer op.dst.buffer op.channel_type with
    | .error e => .error e
    | .ok src_ids =>
      .ok (instrFields op (some (op.src.buffer.value, op.dst.buffer.value)) Option.none
        src_ids [] [] [] (some op.dst) (some op.dst))
  else if op.inst = .read_reduce_copy_send then
    match op.dsts with
    | [] => .error "IndexError"
    | d0 :: _ =>
      match get_channel_ids op.srcs tbd op.src.buffer op.dst.buffer op.channel_type with
      | .error e => .error e
      | .ok src_ids =>
        match get_channel_ids op.dsts tbd op.dst.buffer d0.buffer op.channel_type with
        | .error e => .error e
        | .ok dst_ids =>
          .ok (instrFields op (some (op.src.buffer.value, op.dst.buffer.value))
            (some (op.dst.buffer.value, d0.buffer.value))
            src_ids dst_ids [] [] (some op.dst) (some op.dst))
  else if op.inst = .reduce_send ∨ op.inst = .reduce_send_packet then
    match op.dsts with
    | [] => .error "IndexError"
    | d0 :: _ =>
      match get_channel_ids op.dsts tbd op.dst.buffer d0.buffer ChannelType.sm with
      | .error e => .error e
      | .ok dst_ids =>
        .ok (instrFields op Option.none (some (op.dst.buffer.value, d0.buffer.value))
          [] dst_ids (chunk_objs op.srcs) [] (some op.dst) (some op.dst))
  else if op.inst = .reduce ∨ op.inst = .reduce_packet then
    .ok (instrFields op Option.none Option.none [] [] (chunk_objs op.srcs) []
      (some op.dst) (some op.dst))
  else if op.inst = .nop then
    .ok (JValue.obj (remove_empty_fields [
      ("name", .str op.inst.value),
      ("deps", .arr (op.depends.map (fun dep =>
        JValue.obj [("tb", .num (env dep.uid).1), ("step", .num (env dep.uid).2)])))]))
  else if op.inst = .barrier then
    .ok (JValue.obj (remove_empty_fields [
      ("name", .str op.inst.value),
      ("nthread_blocks", .num (Int.ofNat op.extra_tb_list.length)),
      ("barrier_id", .num op.extra_barrier_id)]))
  else if op.inst = .put ∨ op.inst = .put_packet ∨ op.inst = .put_with_signal ∨
      op.inst = .put_with_signal_and_flush then
    match get_channel_ids op.dsts tbd op.src.buffer op.dst.buffer op.channel_type with
    | .error e => .error e
    | .ok dst_ids =>
      .ok (instrFields op Option.none (some (op.src.buffer.value, op.dst.buffer.value))
        [] dst_ids (chunk_objs op.srcs) [] Option.none Option.none)
  else if op.inst = .get then
    match get_channel_ids op.srcs tbd op.src.buffer op.dst.buffer op.channel_type with
    | .error e => .error e
    | .ok src_ids =>
      .ok (instrFields op (some (op.src.buffer.value, op.dst.buffer.value)) Option.none
        src_ids [] [] (chunk_objs op.dsts) Option.none Option.none)
  else if op.inst = .copy ∨ op.inst = .copy_packet ∨ op.inst = .transform_to_packet then
    .ok (instrFields op Option.none Option.none [] [] [] []
      (some op.src) (some op.dst))
  else if op.inst = .group_load_reduce_store then
    match get_channel_ids op.srcs tbd op.src.buffer op.dst.buffer op.channel_type with
    | .error e => .error e
    | .ok src_ids =>
      match get_channel_ids op.dsts tbd op.src.buffer op.dst.buffer op.channel_type with
      | .error e => .error e
      | .ok dst_ids =>
        .ok (instrFields op Option.none Option.none src_ids dst_ids [] []
          (some op.src) (some op.dst))
  else
    .ok (instrFields op Option.none Option.none [] [] [] [] Option.none Option.none)

/-- Lines 234-245 of `mscclpp/ir.py`: the per-threadblock channel dict, kept
only for keys whose id list for this threadblock is nonempty. -/
def tb_chan_objs (gchans : List (ChanKey × List ChanEntry)) (tbid : Int) :
    List (ChanKey × TbChan) :=
  gchans.filterMap (fun kv =>
    let o : TbChan := {
      srcbuff := kv.1.1.value
      dstbuff := kv.1.2.1.value
      type := kv.1.2.2.value
      chanIds := kv.2.enum.filterMap (fun ide =>
        if ide.2.1 = tbid then some ide.1 else Option.none)
      connectedTo := kv.2.filterMap (fun e =>
        if e.1 = tbid then some e.2 else Option.none) }
    if o.chanIds.isEmpty then Option.none else some (kv.1, o))

/-- Ordering by the `(srcbuff, dstbuff)` string pair, the sort key of
lines 212 and 247 of `mscclpp/ir.py`. -/
def buffPairLe (x y : String × String) : Prop :=
  x.1 < y.1 ∨ (x.1 = y.1 ∧ x.2 ≤ y.2)

instance : DecidableRel buffPairLe := fun x y => by
  unfold buffPairLe
  infer_instance

def tbChanLe (a b : TbChan) : Prop := buffPairLe (a.srcbuff, a.dstbuff) (b.srcbuff, b.dstbuff)

instance : DecidableRel tbChanLe := fun a b => by
  unfold tbChanLe
  infer_instance

/-- Lines 229-247 and 360-370 of `mscclpp/ir.py`: serialize one threadblock
(the caller has already skipped threadblocks with negative id). -/
def serialize_tb (env : Nat → Int × Int) (gchans : List (ChanKey × List ChanEntry))
    (tb : Threadblock) : Except String JValue :=
  let tbd := tb_chan_objs gchans tb.id
  let tbcs := List.insertionSort tbChanLe
    ((tbd.map (·.2)).filter (fun o => o.type ≠ "none"))
  match mapE (serialize_op env tbd) (tb.ops.filter (fun op => decide (op.tb ≠ -1))) with
  | .error e => .error e
  | .ok ops => .ok (JValue.obj [
      ("id", .num tb.id),
      ("ops", .arr ops),
      ("channels", .arr (tbcs.map (fun x => JValue.obj [
        ("src", .str x.srcbuff),
        ("dst", .str x.dstbuff),
        ("ctype", .str x.type),
        ("cids", .arr (x.chanIds.map (fun i => JValue.num (Int.ofNat i))))])))])

/-- The device-level channel object of lines 201-209 of `mscclpp/ir.py`. -/
structure DevChan where
  srcbuff : String
  dstbuff : String
  type : String
  connectedTo : List ConnTarget
deriving DecidableEq, Repr

def devChanLe (a b : DevChan) : Prop :=
  buffPairLe (a.srcbuff, a.dstbuff) (b.srcbuff, b.dstbuff)

instance : DecidableRel devChanLe := fun a b => by
  unfold devChanLe
  infer_instance

/-- Natural-number ordering used for `sorted(list(eles))` on an nvls rank
list (line 209 of `mscclpp/ir.py`). -/
def natLe (a b : Nat) : Prop := a ≤ b

instance : DecidableRel natLe := fun a b => by
  unfold natLe
  infer_instance

/-- Lines 201-210 of `mscclpp/ir.py`: build the device-level channel objects.
For an nvls key every connection target list is sorted; a single-rank target
under an nvls key makes Python raise a TypeError inside `sorted(list(...))`. -/
def dev_chan_objs (gchans : List (ChanKey × List ChanEntry)) :
    Except String (List DevChan) :=
  mapE (fun kv =>
    let base : DevChan := {
      srcbuff := kv.1.1.value
      dstbuff := kv.1.2.1.value
      type := kv.1.2.2.value
      connectedTo := kv.2.map (·.2) }
    if kv.1.2.2 = ChannelType.nvls then
      match mapE (fun e =>
          match e with
          | ConnTarget.multi rs =>
            Except.ok (ConnTarget.multi (List.insertionSort natLe rs))
          | ConnTarget.single _ =>
            Except.error "TypeError: int object is not iterable") base.connectedTo with
      | .error e => .error e
      | .ok sorted => .ok { base with connectedTo := sorted }
    else .ok base) gchans

def connTargetToJ : ConnTarget → JValue
  | .single r => .num (Int.ofNat r)
  | .multi rs => .arr (rs.map (fun r => JValue.num (Int.ofNat r)))

/-- Lines 215-227 of `mscclpp/ir.py`: the final rendering of one device
channel.  An nvls channel is replaced by a `buff`/`type`/`rankGroups`
object whose group size is the maximal capacity of the named buffer kind
across all devices; other channels keep the
`srcbuff`/`dstbuff`/`type`/`connectedTo` shape of lines 202-207. -/
def render_dev_chan (max_input max_output max_scratch : Nat) (c : DevChan) : JValue :=
  if c.type = "nvls" then
    let bufsize :=
      if c.srcbuff = Buffer.input.value then max_input
      else if c.srcbuff = Buffer.output.value then max_output
      else max_scratch
    JValue.obj [
      ("buff", .str c.srcbuff),
      ("type", .str c.type),
      ("rankGroups", .arr (c.connectedTo.map (fun e =>
        JValue.obj [("size", .num (Int.ofNat bufsize)), ("ranks", connTargetToJ e)])))]
  else
    JValue.obj [
      ("srcbuff", .str c.srcbuff),
      ("dstbuff", .str c.dstbuff),
      ("type", .str c.type),
      ("connectedTo", .arr (c.connectedTo.map connTargetToJ))]

/-- Lines 191-371 of `mscclpp/ir.py`: serialize one device.  `idx` is the
enumeration index, `ncg` the program chunk-group count and `env` the
dependency-reference resolver. -/
def serialize_gpu (max_input max_output max_scratch : Nat) (ncg : Nat)
    (env : Nat → Int × Int) (idx : Nat) (g : Gpu) : Except String JValue :=
  match dev_chan_objs g.channels with
  | .error e => .error e
  | .ok raw =>
    let chans := List.insertionSort devChanLe (raw.filter (fun c => c.type ≠ "none"))
    let rendered := chans.map (render_dev_chan max_input max_output max_scratch)
    match mapE (serialize_tb env g.channels)
        (g.threadblocks.filter (fun tb => decide (¬ tb.id < 0))) with
    | .error e => .error e
    | .ok tbs => .ok (JValue.obj [
        ("id", .num (Int.ofNat idx)),
        ("inputChunks", .num (Int.ofNat g.input_chunks)),
        ("outputChunks", .num (Int.ofNat g.output_chunks)),
        ("scratchChunks", .num (Int.ofNat g.scratch_chunks)),
        ("chunkGroups", .num (Int.ofNat ncg)),
        ("threadblocks", .arr tbs),
        ("channels", .arr rendered)])

/-- All ops of a program, used to resolve a dependency reference to the final
`tb` and `step` fields of the referenced op (in Python the fields are read
through the object pointer). -/
def find_op_by_uid (p : Program) (u : Nat) : Option Op :=
  (p.gpus.flatMap (fun g => g.threadblocks.flatMap (·.ops))).find?
    (fun op => op.uid = u)

/-- Dependency-reference resolver: the final `(tb, step)` of the referenced
op.  The default is never reached for programs whose references resolve
(in Python an object pointer always dereferences). -/
def dep_env (p : Program) (u : Nat) : Int × Int :=
  match find_op_by_uid p u with
  | some op => (op.tb, op.step)
  | Option.none => (-1, -1)

/-- Lines 160-383 of `mscclpp/ir.py`: serialize the lowered program.  The
maxima of lines 187-189 raise on an empty device list.  The final
`json.dumps` string rendering is not modelled; the result is the document
value. -/
def dump_to_json (p : Program) : Except String JValue :=
  match p.gpus with
  | [] => .error "ValueError: max() arg is an empty sequence"
  | g0 :: gs =>
    let max_scratch := (gs.map (·.scratch_chunks)).foldl max g0.scratch_chunks
    let max_input := (gs.map (·.input_chunks)).foldl max g0.input_chunks
    let max_output := (gs.map (·.output_chunks)).foldl max g0.output_chunks
    match mapE (fun ig =>
        serialize_gpu max_input max_output max_scratch p.num_chunk_groups
          (dep_env p) ig.1 ig.2) p.gpus.enum with
    | .error e => .error e
    | .ok gpus => .ok (JValue.obj [
        ("name", .str p.name),
        ("collective", .str p.collective),
        ("protocol", .str p.protocol),
        ("inplace", .bool p.inplace),
        ("gpus", .arr gpus),
        ("num_threads_per_block", .num (Int.ofNat p.num_threads_per_block)),
        ("use_double_scratch_buffer", .bool p.use_double_scratch_buffer),
        ("min_message_size", .num (Int.ofNat p.min_message_size)),
        ("max_message_size", .num (Int.ofNat p.max_message_size))])

/-- The whole of `ir_to_json` (lines 50-157 of `mscclpp/ir.py`): the
transformation pipeline followed by serialization. -/
def ir_to_json (p : Program) : Except String JValue :=
  dump_to_json (lower_program p)

/-! Claim-side definitions: restatements drawn from the wording of the
specification, to be compared with the code-derived definitions above. -/

/-- Stated from the spec (section 4.1): the index + length values one op
contributes to the capacity requirement of buffer kind `b` on its own
device: the primary source and every source-list entry when the
instruction kind reads a local buffer, and the primary destination and
(unless the destination list is inherently remote) every destination-list
entry when the instruction kind writes a local buffer. -/
def op_required (b : Buffer) (op : Op) : List Nat :=
  (if op.inst ∈ local_src_insts_mscclpp then
    (if op.src.buffer = b then [op.src.index + op.src.size] else []) ++
      (op.srcs.filter (fun s => s.buffer = b)).map (fun s => s.index + s.size)
   else []) ++
  (if op.inst ∈ local_dst_insts_mscclpp then
    (if op.dst.buffer = b then [op.dst.index + op.dst.size] else []) ++
      (if op.inst ≠ .read_reduce_copy_send ∧ op.inst ≠ .reduce_send ∧
          op.inst ≠ .reduce_send_packet then
        (op.dsts.filter (fun d => d.buffer = b)).map (fun d => d.index + d.size)
       else [])
   else [])

/-- Stated from the spec (section 4.1): the capacity one device requires for
one buffer kind, the largest contribution over all its own ops. -/
def required_capacity (g : Gpu) (b : Buffer) : Nat :=
  listMax (g.threadblocks.flatMap (fun tb => tb.ops.flatMap (op_required b)))

/-- The buffer-size contributions of one device in isolation. -/
def gpu_updates (g : Gpu) : List ((Nat × Buffer) × Nat) :=
  g.threadblocks.flatMap (fun tb => tb.ops.flatMap (op_buffer_updates g.rank))

/-- First-match read of the per-device channel table (a present key yields
its entry list, a missing key the empty list). -/
def chan_table_lookup (d : List (ChanKey × List ChanEntry)) (k : ChanKey) :
    List ChanEntry :=
  match d with
  | [] => []
  | kv :: rest => if kv.1 = k then kv.2 else chan_table_lookup rest k

/-- The contributions of one device to the channel table, one declaration per
channel of each threadblock, used to express that two devices declare the
same multiset of channels. -/
def gpu_chan_decls (g : Gpu) : List (ChanKey × ChanEntry) :=
  g.threadblocks.flatMap tb_chan_decls

/-- Number of distinct connection-target rank sets in a list of targets
(rank-set equality ignores order; a set is canonicalized by sorting). -/
def distinct_rank_sets (l : List ConnTarget) : Nat :=
  (l.map (fun t =>
    match t with
    | ConnTarget.single r => [r]
    | ConnTarget.multi rs => List.insertionSort natLe rs)).dedup.length

/-- Number of markers (no-op or barrier ops) in a list that carry the given
dependency. -/
def markerCount (d : Dep) (l : List Op) : Nat :=
  l.countP (fun op => isMarkerInst op.inst && decide (d ∈ op.depends))

/-- Field read on a JSON object value. -/
def getField (v : JValue) (k : String) : Option JValue :=
  match v with
  | .obj fields => (fields.find? (fun kv => kv.1 == k)).map (·.2)
  | _ => Option.none

/-- Key list of a JSON object value. -/
def objKeys (v : JValue) : List String :=
  match v with
  | .obj fields => fields.map (·.1)
  | _ => []

/-- One navigation step into a JSON document: a string indexes an object, a
number indexes an array. -/
def jGet (v : Option JValue) (step : String ⊕ Nat) : Option JValue :=
  match v, step with
  | some (.obj fields), Sum.inl k => (fields.find? (fun kv => kv.1 == k)).map (·.2)
  | some (.arr l), Sum.inr i => l.get? i
  | _, _ => Option.none

/-- Navigation into a serialization result along a path of object keys and
array indices. -/
def jPath (v : Except String JValue) (path : List (String ⊕ Nat)) : Option JValue :=
  path.foldl jGet (match v with | .ok d => some d | .error _ => Option.none)

/-! Concrete input data used by counterexamples and witnesses. -/

/-- Shorthand for a chunk reference. -/
def ck (r : Nat) (b : Buffer) (i s : Nat) : ChunkRef :=
  { rank := r, buffer := b, index := i, size := s }

/-- Shorthand for an op of a hand-built input program. -/
def mkOp (uid : Nat) (inst : Instruction) (src dst : ChunkRef)
    (srcs dsts : List ChunkRef) (deps : List Dep) (ct : ChannelType) : Op :=
  { uid := uid, inst := inst, rank := 0, src := src, dst := dst, srcs := srcs,
    dsts := dsts, depends := deps, channel_type := ct, step := -1, tb := -1,
    cnt := src.size, extra_tb_list := [], extra_barrier_id := 0 }

/-- A placeholder threadblock (negative id) that still carries an op reading
input chunk 5 and a channel declaration. -/
def tbNeg : Threadblock :=
  { id := -1, channel := 0,
    channels := [{ srcBuffer := .input, dstBuffer := .output, type := .sm,
                   connected_to := .single 9 }],
    ops := [mkOp 1 .put (ck 0 .input 5 1) (ck 9 .output 0 1)
      [ck 0 .input 5 1] [ck 9 .output 0 1] [] .sm] }

/-- An ordinary threadblock with one put over an sm channel to rank 1. -/
def tb0 : Threadblock :=
  { id := 0, channel := 0,
    channels := [{ srcBuffer := .input, dstBuffer := .output, type := .sm,
                   connected_to := .single 1 }],
    ops := [mkOp 2 .put (ck 0 .input 0 2) (ck 1 .output 0 2)
      [ck 0 .input 0 2] [ck 1 .output 0 2] [] .sm] }

/-- A base program with no devices (devices are filled in per example). -/
def progBase : Program :=
  { name := "prog", collective := "allgather", protocol := "Simple",
    inplace := false, num_chunk_groups := 1, num_threads_per_block := 1024,
    use_double_scratch_buffer := false, min_message_size := 0,
    max_message_size := 1048576, gpus := [] }

/-- A device holding both the placeholder and the ordinary threadblock. -/
def G10 : Gpu :=
  { rank := 0, input_chunks := 0, output_chunks := 0, scratch_chunks := 0,
    threadblocks := [tbNeg, tb0], channels := [] }

/-- Program with the placeholder threadblock present. -/
def P10 : Program := { progBase with gpus := [G10] }

/-- The same program with the placeholder threadblock removed. -/
def P10b : Program := { progBase with gpus := [{ G10 with threadblocks := [tb0] }] }

/-- Shorthand for a threadblock of a hand-built input program. -/
def mkTb (i : Int) (chs : List Channel) (ops : List Op) : Threadblock :=
  { id := i, channel := 0, channels := chs, ops := ops }

/-- Shorthand for a device of a hand-built input program, with no declared
capacities and an empty (not yet derived) channel table. -/
def mkGpu (r : Nat) (tbs : List Threadblock) : Gpu :=
  { rank := r, input_chunks := 0, output_chunks := 0, scratch_chunks := 0,
    threadblocks := tbs, channels := [] }

/-- A threadblock declaring three multicast channels under one key with
connection rank sets written [1,2], [2,1] and [1,3]. -/
def tb7 : Threadblock :=
  { id := 0, channel := 0,
    channels := [
      { srcBuffer := .input, dstBuffer := .input, type := .nvls,
        connected_to := .multi [1, 2] },
      { srcBuffer := .input, dstBuffer := .input, type := .nvls,
        connected_to := .multi [2, 1] },
      { srcBuffer := .input, dstBuffer := .input, type := .nvls,
        connected_to := .multi [1, 3] }],
    ops := [] }

/-- The device declaring the three multicast channels of `tb7`. -/
def G7 : Gpu :=
  { rank := 0, input_chunks := 4, output_chunks := 0, scratch_chunks := 0,
    threadblocks := [tb7], channels := [] }

/-- The channel-table key shared by the three multicast declarations. -/
def nvlsKey : ChanKey := (.input, .input, .nvls)

/-- A threadblock whose only channel connects to rank 5 while its put op
addresses a chunk owned by rank 7: the channel lookup key is present but no
connection target matches. -/
def tbOk : Threadblock :=
  { id := 0, channel := 0,
    channels := [{ srcBuffer := .input, dstBuffer := .output, type := .sm,
                   connected_to := .single 5 }],
    ops := [mkOp 1 .put (ck 0 .input 0 1) (ck 7 .output 0 1)
      [ck 0 .input 0 1] [ck 7 .output 0 1] [] .sm] }

/-- Program around `tbOk`. -/
def POk : Program := { progBase with gpus := [mkGpu 0 [tbOk]] }

/-- A threadblock declaring no channels at all while its put op needs one:
the channel lookup key is absent from the per-threadblock dict. -/
def tbBad : Threadblock :=
  { id := 0, channel := 0, channels := [],
    ops := [mkOp 1 .put (ck 0 .input 0 1) (ck 7 .output 0 1)
      [ck 0 .input 0 1] [ck 7 .output 0 1] [] .sm] }

/-- Program around `tbBad`. -/
def PBad : Program := { progBase with gpus := [mkGpu 0 [tbBad]] }

/-- Lowered form of `PBad`, the input handed to serialization. -/
def PBadL : Program := lower_program PBad

/-- Threadblock 0 of the cross-threadblock example: two independent puts. -/
def tbA8 : Threadblock :=
  { id := 0, channel := 0, channels := [],
    ops := [mkOp 1 .put (ck 0 .input 0 1) (ck 1 .output 0 1) [] [] [] .sm,
            mkOp 2 .put (ck 0 .input 1 1) (ck 1 .output 1 1) [] [] [] .sm] }

/-- Threadblock 1 of the cross-threadblock example: one put depending on the
second op of threadblock 0. -/
def tbB8 : Threadblock :=
  { id := 1, channel := 0, channels := [],
    ops := [mkOp 3 .put (ck 0 .input 2 1) (ck 1 .output 2 1) [] []
      [{ uid := 2, inst := .put }] .sm] }

/-- A well-formed program whose only dependency crosses threadblocks. -/
def P8 : Program := { progBase with gpus := [mkGpu 0 [tbA8, tbB8]] }

/-- Lowered form of `P8`. -/
def Q8 : Program := lower_program P8

/-- The op list of the packet counterexample: a put followed by a
packet-format copy depending on it. -/
def c1ops : List Op :=
  [mkOp 1 .put (ck 0 .input 0 1) (ck 1 .output 0 1) [] [] [] .sm,
   mkOp 2 .copy_packet (ck 0 .input 0 1) (ck 0 .output 0 1) [] []
     [{ uid := 1, inst := .put }] .sm]

/-- A device with one scratch-writing copy, inferring scratch capacity 4. -/
def GS1 : Gpu :=
  mkGpu 0 [mkTb 0 [] [mkOp 1 .copy (ck 0 .input 0 1) (ck 0 .scratch 3 1) [] [] [] .sm]]

/-- A device with no scratch usage at all. -/
def GS2 : Gpu := mkGpu 1 [mkTb 0 [] []]

/-- A low-latency program whose devices infer different scratch needs. -/
def PW3 : Program := { progBase with protocol := "LL", gpus := [GS1, GS2] }

/-- Two channels under one key, declared in opposite orders by `tbW1` and
`tbW2`. -/
def chW1 : Channel :=
  { srcBuffer := .input, dstBuffer := .output, type := .sm, connected_to := .single 2 }

def chW2 : Channel :=
  { srcBuffer := .input, dstBuffer := .output, type := .sm, connected_to := .single 1 }

def GW1 : Gpu := mkGpu 0 [mkTb 0 [chW1, chW2] []]

def GW2 : Gpu := mkGpu 0 [mkTb 0 [chW2, chW1] []]

/-- Program around the multicast-declaring device `G7`. -/
def P7 : Program := { progBase with gpus := [G7] }

/-- The instruction kinds whose serialization branch begins with a channel
lookup under the key (source buffer, destination buffer, channel kind) of
the op itself (all channel-needing kinds except the reduce-send variants,
whose key is built from the remote destination list). -/
def chan_lookup_insts : List Instruction :=
  [.signal, .flush, .wait, .read_reduce_copy, .read_reduce_copy_send,
   .put, .put_packet, .put_with_signal, .put_with_signal_and_flush,
   .get, .group_load_reduce_store]

/-- Two puts in one threadblock, the second depending on the first. -/
def c8wOps : List Op :=
  [mkOp 1 .put (ck 0 .input 0 1) (ck 1 .output 0 1) [] [] [] .sm,
   mkOp 2 .put (ck 0 .input 1 1) (ck 1 .output 1 1) [] []
     [{ uid := 1, inst := .put }] .sm]

/-! General helper lemmas. -/

theorem listMax_cons (a : Nat) (l : List Nat) : listMax (a :: l) = max a (listMax l) := rfl

theorem listMax_map_const {α : Type} (m : Nat) :
    ∀ (l : List α), l ≠ [] → listMax (l.map (fun _ => m)) = m
  | [], h => absurd rfl h
  | [_], _ => by simp [listMax]
  | _ :: b :: bs, _ => by
    rw [List.map_cons, listMax_cons, listMax_map_const m (b :: bs) (by simp)]
    exact Nat.max_self m

theorem listMax_append (l1 l2 : List Nat) :
    listMax (l1 ++ l2) = max (listMax l1) (listMax l2) := by
  induction l1 with
  | nil => simp [listMax]
  | cons a as ih =>
    rw [List.cons_append, listMax_cons, listMax_cons, ih, Nat.max_assoc]

theorem mapE_ok_length {α β : Type} (f : α → Except String β) :
    ∀ (l : List α) (r : List β), mapE f l = Except.ok r → r.length = l.length := by
  intro l
  induction l with
  | nil =>
    intro r h
    simp only [mapE] at h
    cases h
    rfl
  | cons a as ih =>
    intro r h
    simp only [mapE] at h
    cases hf : f a with
    | error e => rw [hf] at h; cases h
    | ok b =>
      rw [hf] at h
      cases hm : mapE f as with
      | error e => rw [hm] at h; cases h
      | ok bs =>
        rw [hm] at h
        cases h
        simp [ih bs hm]

theorem mapE_not_ok {α β : Type} (f : α → Except String β) :
    ∀ (l : List α) (x : α), x ∈ l → (∀ v, f x ≠ Except.ok v) →
      ∀ r, mapE f l ≠ Except.ok r := by
  intro l
  induction l with
  | nil =>
    intro x hx
    cases hx
  | cons a as ih =>
    intro x hx hbad r h
    simp only [mapE] at h
    cases hf : f a with
    | error e => rw [hf] at h; cases h
    | ok b =>
      rw [hf] at h
      cases hm : mapE f as with
      | error e => rw [hm] at h; cases h
      | ok bs =>
        rcases List.mem_cons.mp hx with he | hx2
        · exact hbad b (he ▸ hf)
        · exact ih x hx2 hbad bs hm

/-- C2: for every input program, the document returned by `dump_to_json` has
exactly the top-level fields name, collective, protocol, inplace,
num_threads_per_block, use_double_scratch_buffer, min_message_size,
max_message_size and gpus, with gpus an ordered list holding one entry per
device. -/
theorem c2_output_fields (p : Program) (doc : JValue)
    (h : dump_to_json p = Except.ok doc) :
    objKeys doc = ["name", "collective", "protocol", "inplace", "gpus",
      "num_threads_per_block", "use_double_scratch_buffer",
      "min_message_size", "max_message_size"] ∧
    ∃ gs, getField doc "gpus" = some (JValue.arr gs) ∧
      gs.length = p.gpus.length := by
  unfold dump_to_json at h
  cases hg : p.gpus with
  | nil => rw [hg] at h; cases h
  | cons g0 gs0 =>
    rw [hg] at h
    simp only at h
    cases hm : mapE (fun ig =>
        serialize_gpu ((gs0.map (fun g => g.input_chunks)).foldl max g0.input_chunks)
          ((gs0.map (fun g => g.output_chunks)).foldl max g0.output_chunks)
          ((gs0.map (fun g => g.scratch_chunks)).foldl max g0.scratch_chunks)
          p.num_chunk_groups (dep_env p) ig.1 ig.2) (g0 :: gs0).enum with
    | error e => rw [hm] at h; cases h
    | ok gpuObjs =>
      rw [hm] at h
      cases h
      refine ⟨rfl, gpuObjs, rfl, ?_⟩
      rw [mapE_ok_length _ _ _ hm, List.enum_length]

/-- Witness for C2 on a concrete lowered program. -/
theorem c2_output_fields_witness :
    ∃ doc, dump_to_json (lower_program P10) = Except.ok doc ∧
      objKeys doc = ["name", "collective", "protocol", "inplace", "gpus",
        "num_threads_per_block", "use_double_scratch_buffer",
        "min_message_size", "max_message_size"] ∧
      ∃ gs, getField doc "gpus" = some (JValue.arr gs) ∧
        gs.length = (lower_program P10).gpus.length := by
  cases hm : dump_to_json (lower_program P10) with
  | error e =>
    have hok : exceptIsOk (dump_to_json (lower_program P10)) = true := by decide
    rw [hm] at hok
    simp [exceptIsOk] at hok
  | ok doc =>
    exact ⟨doc, rfl, (c2_output_fields _ _ hm).1, (c2_output_fields _ _ hm).2⟩

/-- C3: after buffer-size inference (including the low-latency adjustment),
an LL program has every device reporting one identical scratch chunk count,
the maximum across all devices. -/
theorem c3_ll_uniform_scratch (p : Program) (hLL : p.protocol = "LL") :
    ∀ (i : Nat) (g : Gpu),
      (apply_ll_scratch (infer_buffer_sizes p)).gpus[i]? = some g →
      (g.scratch_chunks =
        listMax ((apply_ll_scratch (infer_buffer_sizes p)).gpus.map
          (fun x => x.scratch_chunks)) ∧
       ∀ (j : Nat) (g2 : Gpu),
         (apply_ll_scratch (infer_buffer_sizes p)).gpus[j]? = some g2 →
         g.scratch_chunks = g2.scratch_chunks) := by
  have hproto : (infer_buffer_sizes p).protocol = "LL" := hLL
  have hgpus : (apply_ll_scratch (infer_buffer_sizes p)).gpus =
      (infer_buffer_sizes p).gpus.map (fun g =>
        { g with scratch_chunks :=
            listMax ((infer_buffer_sizes p).gpus.map (fun x => x.scratch_chunks)) }) := by
    simp [apply_ll_scratch, hproto]
  intro i g hi
  rw [hgpus, List.getElem?_map] at hi
  cases hx : (infer_buffer_sizes p).gpus[i]? with
  | none => rw [hx] at hi; cases hi
  | some g0 =>
    rw [hx] at hi
    cases hi
    have hne : (infer_buffer_sizes p).gpus ≠ [] := by
      intro hnil
      rw [hnil] at hx
      cases hx
    constructor
    · rw [hgpus, List.map_map]
      exact (listMax_map_const
        (listMax ((infer_buffer_sizes p).gpus.map (fun x => x.scratch_chunks)))
        (infer_buffer_sizes p).gpus hne).symm
    · intro j g2 hj
      rw [hgpus, List.getElem?_map] at hj
      cases hy : (infer_buffer_sizes p).gpus[j]? with
      | none => rw [hy] at hj; cases hj
      | some g1 =>
        rw [hy] at hj
        cases hj
        rfl

/-- Witness for C3 on a concrete LL program with differing inferred scratch
needs. -/
theorem c3_ll_uniform_scratch_witness :
    ∃ g, (apply_ll_scratch (infer_buffer_sizes PW3)).gpus[0]? = some g ∧
      g.scratch_chunks =
        listMax ((apply_ll_scratch (infer_buffer_sizes PW3)).gpus.map
          (fun x => x.scratch_chunks)) := by
  refine ⟨_, rfl, ?_⟩
  exact (c3_ll_uniform_scratch PW3 rfl 0 _ rfl).1

/-! Lemmas about the redundant-dependency filter. -/

theorem filter_redundant_aux_disjoint :
    ∀ (ops : List Op) (running : List Dep) (o : Op),
      o ∈ filter_redundant_aux running ops → ∀ d ∈ o.depends, d ∉ running := by
  intro ops
  induction ops with
  | nil =>
    intro running o ho
    cases ho
  | cons op rest ih =>
    intro running o ho d hd hrun
    simp only [filter_redundant_aux] at ho
    rcases List.mem_cons.mp ho with he | ho2
    · rw [he] at hd
      simp only [List.mem_filter, decide_not] at hd
      exact absurd hrun (by simpa using hd.2)
    · exact (ih _ o ho2 d hd) (List.mem_append.mpr (Or.inl hrun))

theorem filter_redundant_aux_pairwise :
    ∀ (ops : List Op) (running : List Dep),
      List.Pairwise (fun a b => ∀ d ∈ a.depends, d ∉ b.depends)
        (filter_redundant_aux running ops) := by
  intro ops
  induction ops with
  | nil =>
    intro running
    exact List.Pairwise.nil
  | cons op rest ih =>
    intro running
    simp only [filter_redundant_aux]
    refine List.Pairwise.cons ?_ (ih _)
    intro b hb d hd hdb
    have hdis := filter_redundant_aux_disjoint rest
      (running ++ op.depends.filter (fun dep => dep ∉ running)) b hb d hdb
    exact hdis (List.mem_append.mpr (Or.inr hd))

/-- C9: the redundant-dependency filter is a streaming transitive reduction:
each op drops exactly the dependencies already in the running set and adds
its kept dependencies to it; consequently no op of a threadblock lists a
dependency that also appears in the reduced dependency list of an earlier
op of the same threadblock. -/
theorem c9_transitive_reduction :
    (∀ (running : List Dep) (op : Op) (rest : List Op),
      filter_redundant_aux running (op :: rest) =
        { op with depends := op.depends.filter (fun dep => dep ∉ running) } ::
          filter_redundant_aux
            (running ++ op.depends.filter (fun dep => dep ∉ running)) rest) ∧
    (∀ (ops : List Op),
      List.Pairwise (fun a b => ∀ d ∈ a.depends, d ∉ b.depends)
        (filter_redundant_aux [] ops)) :=
  ⟨fun _ _ _ => rfl, fun ops => filter_redundant_aux_pairwise ops []⟩

/-! Order-theoretic facts about the channel-entry sort keys. -/

theorem natListLeB_cons (x y : Nat) (xs ys : List Nat) :
    natListLeB (x :: xs) (y :: ys) = true ↔
      x < y ∨ (x = y ∧ natListLeB xs ys = true) := by
  simp only [natListLeB]
  by_cases h1 : x < y
  · simp [h1]
  · by_cases h2 : y < x
    · rw [if_neg h1, if_pos h2]
      constructor
      · intro h
        simp at h
      · intro h
        rcases h with h | ⟨he, _⟩
        · exact absurd h h1
        · omega
    · rw [if_neg h1, if_neg h2]
      have hxy : x = y := by omega
      constructor
      · intro h
        exact Or.inr ⟨hxy, h⟩
      · intro h
        rcases h with h | ⟨_, h⟩
        · exact absurd h h1
        · exact h

theorem natListLeB_total : ∀ a b, natListLeB a b = true ∨ natListLeB b a = true := by
  intro a
  induction a with
  | nil =>
    intro b
    exact Or.inl rfl
  | cons x xs ih =>
    intro b
    cases b with
    | nil => exact Or.inr rfl
    | cons y ys =>
      rcases Nat.lt_trichotomy x y with h | h | h
      · exact Or.inl ((natListLeB_cons x y xs ys).mpr (Or.inl h))
      · rcases ih ys with h2 | h2
        · exact Or.inl ((natListLeB_cons x y xs ys).mpr (Or.inr ⟨h, h2⟩))
        · exact Or.inr ((natListLeB_cons y x ys xs).mpr (Or.inr ⟨h.symm, h2⟩))
      · exact Or.inr ((natListLeB_cons y x ys xs).mpr (Or.inl h))

theorem natListLeB_trans :
    ∀ a b c, natListLeB a b = true → natListLeB b c = true →
      natListLeB a c = true := by
  intro a
  induction a with
  | nil =>
    intro b c _ _
    rfl
  | cons x xs ih =>
    intro b c hab hbc
    cases b with
    | nil => simp [natListLeB] at hab
    | cons y ys =>
      cases c with
      | nil => simp [natListLeB] at hbc
      | cons z zs =>
        rw [natListLeB_cons] at hab hbc ⊢
        rcases hab with h | ⟨he1, h1⟩
        · rcases hbc with h2 | ⟨he2, _⟩
          · exact Or.inl (by omega)
          · exact Or.inl (by omega)
        · rcases hbc with h2 | ⟨he2, h3⟩
          · exact Or.inl (by omega)
          · exact Or.inr ⟨by omega, ih ys zs h1 h3⟩

theorem natListLeB_antisymm :
    ∀ a b, natListLeB a b = true → natListLeB b a = true → a = b := by
  intro a
  induction a with
  | nil =>
    intro b _ hba
    cases b with
    | nil => rfl
    | cons y ys => simp [natListLeB] at hba
  | cons x xs ih =>
    intro b hab hba
    cases b with
    | nil => simp [natListLeB] at hab
    | cons y ys =>
      rw [natListLeB_cons] at hab hba
      rcases hab with h | ⟨he, h1⟩
      · rcases hba with h2 | ⟨he2, _⟩
        · omega
        · omega
      · rcases hba with h2 | ⟨he2, h2⟩
        · omega
        · rw [he, ih ys h1 h2]

theorem connLeB_total : ∀ a b, connLeB a b = true ∨ connLeB b a = true := by
  intro a b
  cases a with
  | single r =>
    cases b with
    | single s => simp [connLeB]; omega
    | multi ss => exact Or.inl rfl
  | multi rs =>
    cases b with
    | single s => exact Or.inr rfl
    | multi ss => exact natListLeB_total rs ss

theorem connLeB_trans :
    ∀ a b c, connLeB a b = true → connLeB b c = true → connLeB a c = true := by
  intro a b c hab hbc
  cases a with
  | single r =>
    cases c with
    | single t =>
      cases b with
      | single s =>
        simp only [connLeB, decide_eq_true_eq] at hab hbc ⊢
        omega
      | multi ss => simp [connLeB] at hbc
    | multi ts => rfl
  | multi rs =>
    cases b with
    | single s => simp [connLeB] at hab
    | multi ss =>
      cases c with
      | single t => simp [connLeB] at hbc
      | multi ts => exact natListLeB_trans rs ss ts hab hbc

theorem connLeB_antisymm :
    ∀ a b, connLeB a b = true → connLeB b a = true → a = b := by
  intro a b hab hba
  cases a with
  | single r =>
    cases b with
    | single s =>
      simp only [connLeB, decide_eq_true_eq] at hab hba
      have : r = s := by omega
      rw [this]
    | multi ss => simp [connLeB] at hba
  | multi rs =>
    cases b with
    | single s => simp [connLeB] at hab
    | multi ss => rw [natListLeB_antisymm rs ss hab hba]

instance : IsTotal ChanEntry chanEntryLe := by
  constructor
  intro a b
  unfold chanEntryLe chanEntryLeB
  by_cases h1 : a.1 < b.1
  · exact Or.inl (by simp [h1])
  · by_cases h2 : b.1 < a.1
    · exact Or.inr (by simp [h2])
    · rcases connLeB_total a.2 b.2 with h | h
      · exact Or.inl (by simp [h1, h2, h])
      · exact Or.inr (by simp [h1, h2, h])

instance : IsTrans ChanEntry chanEntryLe := by
  constructor
  intro a b c hab hbc
  unfold chanEntryLe chanEntryLeB at hab hbc ⊢
  by_cases h1 : a.1 < b.1
  · by_cases h2 : b.1 < c.1
    · simp [show a.1 < c.1 by omega]
    · by_cases h3 : c.1 < b.1
      · simp [h2, h3] at hbc
      · have : b.1 = c.1 := by omega
        simp [show a.1 < c.1 by omega]
  · by_cases h4 : b.1 < a.1
    · simp [h1, h4] at hab
    · have hab1 : a.1 = b.1 := by omega
      by_cases h2 : b.1 < c.1
      · simp [show a.1 < c.1 by omega]
      · by_cases h3 : c.1 < b.1
        · simp [h2, h3] at hbc
        · have hbc1 : b.1 = c.1 := by omega
          simp only [h1, h4, if_false] at hab
          simp only [h2, h3, if_false] at hbc
          simp only [show ¬ a.1 < c.1 by omega, show ¬ c.1 < a.1 by omega, if_false]
          exact connLeB_trans a.2 b.2 c.2 (by simpa using hab) (by simpa using hbc)

instance : IsAntisymm ChanEntry chanEntryLe := by
  constructor
  intro a b hab hba
  unfold chanEntryLe chanEntryLeB at hab hba
  by_cases h1 : a.1 < b.1
  · simp [show ¬ b.1 < a.1 by omega, h1] at hba
  · by_cases h2 : b.1 < a.1
    · simp [h1, h2] at hab
    · have heq1 : a.1 = b.1 := by omega
      simp only [h1, h2, if_false] at hab hba
      have heq2 : a.2 = b.2 :=
        connLeB_antisymm a.2 b.2 (by simpa using hab) (by simpa using hba)
      exact Prod.ext heq1 heq2

/-! Lemmas about the channel-table construction. -/

theorem chan_table_lookup_add (d : List (ChanKey × List ChanEntry))
    (kv : ChanKey × ChanEntry) (k : ChanKey) :
    chan_table_lookup (add_chan_decl d kv) k =
      if kv.1 = k then chan_table_lookup d k ++ [kv.2]
      else chan_table_lookup d k := by
  induction d with
  | nil =>
    by_cases h : kv.1 = k <;> simp [add_chan_decl, chan_table_lookup, h]
  | cons hd rest ih =>
    obtain ⟨k0, vs⟩ := hd
    simp only [add_chan_decl]
    by_cases h1 : k0 = kv.1
    · rw [if_pos h1]
      by_cases h2 : k0 = k
      · simp [chan_table_lookup, h2, h1 ▸ h2]
      · have : kv.1 ≠ k := by rw [← h1]; exact h2
        simp [chan_table_lookup, h2, this]
    · rw [if_neg h1]
      by_cases h2 : k0 = k
      · have : kv.1 ≠ k := fun he => h1 (h2 ▸ he.symm ▸ rfl)
        simp [chan_table_lookup, h2, this]
      · simp [chan_table_lookup, h2, ih]

theorem chan_table_lookup_foldl (L : List (ChanKey × ChanEntry)) :
    ∀ (d : List (ChanKey × List ChanEntry)) (k : ChanKey),
      chan_table_lookup (L.foldl add_chan_decl d) k =
        chan_table_lookup d k ++
          L.filterMap (fun kv => if kv.1 = k then some kv.2 else Option.none) := by
  induction L with
  | nil =>
    intro d k
    simp
  | cons kv L ih =>
    intro d k
    rw [List.foldl_cons, ih, chan_table_lookup_add]
    by_cases h : kv.1 = k
    · simp [h, List.filterMap_cons]
    · simp [h, List.filterMap_cons]

theorem chan_table_lookup_map_sort (d : List (ChanKey × List ChanEntry)) (k : ChanKey) :
    chan_table_lookup (d.map (fun kv => (kv.1, List.insertionSort chanEntryLe kv.2))) k =
      List.insertionSort chanEntryLe (chan_table_lookup d k) := by
  induction d with
  | nil => simp [chan_table_lookup, List.insertionSort]
  | cons kv rest ih =>
    by_cases h : kv.1 = k <;> simp [chan_table_lookup, h, ih]

theorem build_channels_gpu_lookup (g : Gpu) (k : ChanKey) :
    chan_table_lookup (build_channels_gpu g).channels k =
      List.insertionSort chanEntryLe
        (((List.insertionSort tbLe g.threadblocks).flatMap tb_chan_decls).filterMap
          (fun kv => if kv.1 = k then some kv.2 else Option.none)) := by
  unfold build_channels_gpu
  rw [chan_table_lookup_map_sort, chan_table_lookup_foldl]
  simp [chan_table_lookup]

/-- C6: the channel allocator is deterministic: two devices declaring the
same multiset of per-threadblock channel declarations (in any order) obtain
identical per-key channel-table lists, hence identical positional channel
ids. -/
theorem c6_channel_determinism (g g2 : Gpu)
    (h : (gpu_chan_decls g).Perm (gpu_chan_decls g2)) :
    ∀ k, chan_table_lookup (build_channels_gpu g).channels k =
      chan_table_lookup (build_channels_gpu g2).channels k := by
  intro k
  rw [build_channels_gpu_lookup, build_channels_gpu_lookup]
  have p1 : ((List.insertionSort tbLe g.threadblocks).flatMap tb_chan_decls).Perm
      (gpu_chan_decls g) :=
    List.Perm.flatMap_right tb_chan_decls (List.perm_insertionSort tbLe g.threadblocks)
  have p2 : ((List.insertionSort tbLe g2.threadblocks).flatMap tb_chan_decls).Perm
      (gpu_chan_decls g2) :=
    List.Perm.flatMap_right tb_chan_decls (List.perm_insertionSort tbLe g2.threadblocks)
  have pf : (((List.insertionSort tbLe g.threadblocks).flatMap tb_chan_decls).filterMap
      (fun kv => if kv.1 = k then some kv.2 else Option.none)).Perm
      (((List.insertionSort tbLe g2.threadblocks).flatMap tb_chan_decls).filterMap
        (fun kv => if kv.1 = k then some kv.2 else Option.none)) :=
    List.Perm.filterMap _ ((p1.trans h).trans p2.symm)
  exact List.eq_of_perm_of_sorted
    (((List.perm_insertionSort chanEntryLe _).trans pf).trans
      (List.perm_insertionSort chanEntryLe _).symm)
    (List.sorted_insertionSort chanEntryLe _)
    (List.sorted_insertionSort chanEntryLe _)

/-- Witness for C6: reordered declarations of the same two channels yield
the same sorted table entry. -/
theorem c6_channel_determinism_witness :
    (gpu_chan_decls GW1).Perm (gpu_chan_decls GW2) ∧
    chan_table_lookup (build_channels_gpu GW1).channels
        (Buffer.input, Buffer.output, ChannelType.sm) =
      chan_table_lookup (build_channels_gpu GW2).channels
        (Buffer.input, Buffer.output, ChannelType.sm) :=
  ⟨by decide, c6_channel_determinism GW1 GW2 (by decide) _⟩

/-- Counterexample to C7 as stated: for the three declared multicast
channels with rank sets written [1,2], [2,1] and [1,3], the allocator
produces three channel-table entries (and three exported rank groups), not
two — it never merges the two declarations with equal rank sets. -/
theorem c7_counterexample :
    ¬ (chan_table_lookup (build_channels_gpu G7).channels nvlsKey).length = 2 ∧
    (chan_table_lookup (build_channels_gpu G7).channels nvlsKey).length = 3 ∧
    jPath (ir_to_json P7)
        [Sum.inl "gpus", Sum.inr 0, Sum.inl "channels", Sum.inr 0,
         Sum.inl "rankGroups"] =
      some (JValue.arr [
        JValue.obj [("size", JValue.num 4),
          ("ranks", JValue.arr [JValue.num 1, JValue.num 2])],
        JValue.obj [("size", JValue.num 4),
          ("ranks", JValue.arr [JValue.num 1, JValue.num 3])],
        JValue.obj [("size", JValue.num 4),
          ("ranks", JValue.arr [JValue.num 1, JValue.num 2])]]) :=
  ⟨by decide, rfl, rfl⟩

/-- C7 amended: the allocator keeps all three multicast declarations as
separate entries; among them exactly two distinct rank sets occur, and
rank-set equality (ignoring order) is applied only by channel-id matching,
which therefore resolves a chunk list targeting ranks 2 and 1 to both ids
whose rank set is the set holding 1 and 2. -/
theorem c7_multicast_grouping_amended :
    (chan_table_lookup (build_channels_gpu G7).channels nvlsKey).length = 3 ∧
    distinct_rank_sets
        ((chan_table_lookup (build_channels_gpu G7).channels nvlsKey).map
          (fun e => e.2)) = 2 ∧
    get_channel_ids [ck 2 .input 0 1, ck 1 .input 0 1]
        (tb_chan_objs (build_channels_gpu G7).channels 0) .input .input .nvls =
      Except.ok [JValue.obj [("id", JValue.num 0)],
                 JValue.obj [("id", JValue.num 2)]] :=
  ⟨rfl, rfl, rfl⟩

/-- C10: serialization skips threadblocks with negative id (the emitted list
covers exactly the nonnegatively numbered blocks), while buffer inference
and the channel table still see the skipped blocks; removing such a block
from `P10` changes the inferred input capacity (6 to 2) and the channel ids
of the surviving threadblock ([1] to [0]), the skipped declaration holding
device-channel position 0. -/
theorem c10_negative_tb (mi mo ms ncg : Nat) (env : Nat → Int × Int)
    (idx : Nat) (g : Gpu) (obj : JValue)
    (h : serialize_gpu mi mo ms ncg env idx g = Except.ok obj) :
    (∃ tbs, getField obj "threadblocks" = some (JValue.arr tbs) ∧
       tbs.length = (g.threadblocks.filter (fun tb => decide (¬ tb.id < 0))).length) ∧
    ((lower_program P10).gpus.map (fun x => x.threadblocks.length) = [2] ∧
     jPath (ir_to_json P10)
       [Sum.inl "gpus", Sum.inr 0, Sum.inl "threadblocks", Sum.inr 0, Sum.inl "id"] =
         some (JValue.num 0) ∧
     jPath (ir_to_json P10)
       [Sum.inl "gpus", Sum.inr 0, Sum.inl "threadblocks", Sum.inr 1] = Option.none) ∧
    (jPath (ir_to_json P10) [Sum.inl "gpus", Sum.inr 0, Sum.inl "inputChunks"] =
       some (JValue.num 6) ∧
     jPath (ir_to_json P10b) [Sum.inl "gpus", Sum.inr 0, Sum.inl "inputChunks"] =
       some (JValue.num 2)) ∧
    (jPath (ir_to_json P10)
       [Sum.inl "gpus", Sum.inr 0, Sum.inl "threadblocks", Sum.inr 0,
        Sum.inl "channels", Sum.inr 0, Sum.inl "cids"] =
         some (JValue.arr [JValue.num 1]) ∧
     jPath (ir_to_json P10b)
       [Sum.inl "gpus", Sum.inr 0, Sum.inl "threadblocks", Sum.inr 0,
        Sum.inl "channels", Sum.inr 0, Sum.inl "cids"] =
         some (JValue.arr [JValue.num 0]) ∧
     jPath (ir_to_json P10)
       [Sum.inl "gpus", Sum.inr 0, Sum.inl "channels", Sum.inr 0,
        Sum.inl "connectedTo"] =
         some (JValue.arr [JValue.num 9, JValue.num 1])) := by
  refine ⟨?_, ⟨rfl, rfl, rfl⟩, ⟨rfl, rfl⟩, ⟨rfl, rfl, rfl⟩⟩
  unfold serialize_gpu at h
  cases hd : dev_chan_objs g.channels with
  | error e => rw [hd] at h; cases h
  | ok raw =>
    rw [hd] at h
    simp only at h
    cases hm : mapE (serialize_tb env g.channels)
        (g.threadblocks.filter (fun tb => decide (¬ tb.id < 0))) with
    | error e => rw [hm] at h; cases h
    | ok tbs =>
      rw [hm] at h
      cases h
      exact ⟨tbs, rfl, mapE_ok_length _ _ _ hm⟩

/-- Witness for C10: the device of the lowered `P10` serializes successfully
and its emitted threadblock list covers exactly its nonnegative ids. -/
theorem c10_negative_tb_witness :
    ∃ obj, serialize_gpu 6 0 0 1 (dep_env (lower_program P10)) 0
        ((lower_program P10).gpus.headD (mkGpu 0 [])) = Except.ok obj ∧
      ∃ tbs, getField obj "threadblocks" = some (JValue.arr tbs) ∧
        tbs.length = (((lower_program P10).gpus.headD (mkGpu 0 [])).threadblocks.filter
          (fun tb => decide (¬ tb.id < 0))).length := by
  cases hm : serialize_gpu 6 0 0 1 (dep_env (lower_program P10)) 0
      ((lower_program P10).gpus.headD (mkGpu 0 [])) with
  | error e =>
    have hok : exceptIsOk (serialize_gpu 6 0 0 1 (dep_env (lower_program P10)) 0
        ((lower_program P10).gpus.headD (mkGpu 0 []))) = true := by decide
    rw [hm] at hok
    simp [exceptIsOk] at hok
  | ok obj =>
    exact ⟨obj, rfl, (c10_negative_tb 6 0 0 1 _ 0 _ obj hm).1⟩

/-- Counterexample to C5 as stated: in `POk` the channel lookup finds the
key but no connection target matching the chunk rank; the id list is
silently empty and the whole pass still produces a document. -/
theorem c5_counterexample :
    lookupTbChan (tb_chan_objs (build_channels_gpu (mkGpu 0 [tbOk])).channels 0)
        (Buffer.input, Buffer.output, ChannelType.sm) ≠ Option.none ∧
    get_channel_ids [ck 7 .output 0 1]
        (tb_chan_objs (build_channels_gpu (mkGpu 0 [tbOk])).channels 0)
        .input .output .sm = Except.ok [] ∧
    exceptIsOk (ir_to_json POk) = true :=
  ⟨by decide, rfl, by decide⟩

/-! Error-propagation lemmas for the serializer. -/

theorem serialize_tb_not_ok (env : Nat → Int × Int)
    (gchans : List (ChanKey × List ChanEntry)) (tb : Threadblock) (op : Op)
    (hop : op ∈ tb.ops) (htb : op.tb ≠ -1)
    (hbad : ∀ v, serialize_op env (tb_chan_objs gchans tb.id) op ≠ Except.ok v) :
    ∀ v, serialize_tb env gchans tb ≠ Except.ok v := by
  intro v h
  unfold serialize_tb at h
  simp only at h
  cases hm : mapE (serialize_op env (tb_chan_objs gchans tb.id))
      (tb.ops.filter (fun o => decide (o.tb ≠ -1))) with
  | error e => rw [hm] at h; cases h
  | ok ops =>
    refine mapE_not_ok _ _ op ?_ hbad ops hm
    exact List.mem_filter.mpr ⟨hop, by simpa using htb⟩

theorem serialize_gpu_not_ok (mi mo ms ncg : Nat) (env : Nat → Int × Int)
    (idx : Nat) (g : Gpu) (tb : Threadblock)
    (htb : tb ∈ g.threadblocks) (hid : ¬ tb.id < 0)
    (hbad : ∀ v, serialize_tb env g.channels tb ≠ Except.ok v) :
    ∀ v, serialize_gpu mi mo ms ncg env idx g ≠ Except.ok v := by
  intro v h
  unfold serialize_gpu at h
  cases hd : dev_chan_objs g.channels with
  | error e => rw [hd] at h; cases h
  | ok raw =>
    rw [hd] at h
    simp only at h
    cases hm : mapE (serialize_tb env g.channels)
        (g.threadblocks.filter (fun x => decide (¬ x.id < 0))) with
    | error e => rw [hm] at h; cases h
    | ok tbs =>
      refine mapE_not_ok _ _ tb ?_ hbad tbs hm
      exact List.mem_filter.mpr ⟨htb, by simpa using hid⟩

theorem dump_to_json_not_ok (p : Program) (g : Gpu) (hg : g ∈ p.gpus)
    (hbad : ∀ mi mo ms idx v,
      serialize_gpu mi mo ms p.num_chunk_groups (dep_env p) idx g ≠ Except.ok v) :
    ∀ v, dump_to_json p ≠ Except.ok v := by
  intro v h
  unfold dump_to_json at h
  cases hgs : p.gpus with
  | nil =>
    rw [hgs] at hg
    cases hg
  | cons g0 gs0 =>
    rw [hgs] at h
    simp only at h
    rw [hgs] at hg
    obtain ⟨i, hi⟩ := List.get_of_mem hg
    have hienum : ((g0 :: gs0).enum)[(i : Nat)]? = some ((i : Nat), g) := by
      rw [List.getElem?_enum, List.getElem?_eq_getElem i.isLt]
      rw [← List.get_eq_getElem, hi]
      rfl
    have hmem : ((i : Nat), g) ∈ (g0 :: gs0).enum := List.getElem?_mem hienum
    cases hm : mapE (fun ig =>
        serialize_gpu ((gs0.map (fun x => x.input_chunks)).foldl max g0.input_chunks)
          ((gs0.map (fun x => x.output_chunks)).foldl max g0.output_chunks)
          ((gs0.map (fun x => x.scratch_chunks)).foldl max g0.scratch_chunks)
          p.num_chunk_groups (dep_env p) ig.1 ig.2) ((g0 :: gs0).enum) with
    | error e => rw [hm] at h; cases h
    | ok gpus =>
      exact mapE_not_ok _ _ ((i : Nat), g) hmem
        (fun w => hbad _ _ _ _ w) gpus hm

/-- C5 amended: when the key (source buffer, destination buffer, channel
kind) of a channel-using op is absent from its threadblock channel dict,
the lookup raises and the whole serialization fails — no document is ever
produced; a present key whose connection targets merely fail to match the
chunk rank does not fail (see the counterexample). -/
theorem c5_missing_channel_entry_fails (p : Program) (g : Gpu)
    (tb : Threadblock) (op : Op) (hg : g ∈ p.gpus) (htb : tb ∈ g.threadblocks)
    (hid : ¬ tb.id < 0) (hop : op ∈ tb.ops) (hoptb : op.tb ≠ -1)
    (hinst : op.inst ∈ chan_lookup_insts)
    (hkey : lookupTbChan (tb_chan_objs g.channels tb.id)
      (op.src.buffer, op.dst.buffer, op.channel_type) = Option.none) :
    exceptIsOk (dump_to_json p) = false := by
  have hbadop : ∀ v, serialize_op (dep_env p) (tb_chan_objs g.channels tb.id) op ≠
      Except.ok v := by
    intro v hv
    simp only [chan_lookup_insts, List.mem_cons, List.not_mem_nil, or_false] at hinst
    rcases hinst with h|h|h|h|h|h|h|h|h|h|h <;>
      cases hds : op.dsts <;>
      simp [serialize_op, h, get_channel_ids, hkey, hds] at hv
  have hbadtb := serialize_tb_not_ok (dep_env p) g.channels tb op hop hoptb hbadop
  have hbadgpu : ∀ mi mo ms idx v,
      serialize_gpu mi mo ms p.num_chunk_groups (dep_env p) idx g ≠ Except.ok v :=
    fun mi mo ms idx v =>
      serialize_gpu_not_ok mi mo ms _ _ idx g tb htb hid hbadtb v
  have hdump := dump_to_json_not_ok p g hg hbadgpu
  cases hd : dump_to_json p with
  | ok v => exact absurd hd (hdump v)
  | error e => simp [exceptIsOk]

/-- Witness for the amended C5: a put op in a threadblock that declares no
channels makes the whole pass fail. -/
theorem c5_missing_channel_entry_fails_witness :
    exceptIsOk (dump_to_json PBadL) = false :=
  c5_missing_channel_entry_fails PBadL
    (PBadL.gpus.headD (mkGpu 0 []))
    ((PBadL.gpus.headD (mkGpu 0 [])).threadblocks.headD (mkTb 0 [] []))
    (((PBadL.gpus.headD (mkGpu 0 [])).threadblocks.headD (mkTb 0 [] [])).ops.headD
      (mkNop []))
    (by decide) (by decide) (by decide) (by decide) (by decide) (by decide)
    (by decide)

/-! Lemmas about buffer-size inference. -/

theorem foldl_bump_eq (L : List ((Nat × Buffer) × Nat)) :
    ∀ (f0 : Nat × Buffer → Nat) (k : Nat × Buffer),
      (L.foldl bump f0) k =
        max (f0 k) (listMax ((L.filter (fun kv => kv.1 = k)).map (fun kv => kv.2))) := by
  induction L with
  | nil =>
    intro f0 k
    simp [listMax]
  | cons kv L ih =>
    intro f0 k
    rw [List.foldl_cons, ih]
    by_cases h : kv.1 = k
    · have hbump : bump f0 kv k = max (f0 k) kv.2 := by
        unfold bump
        rw [if_pos h.symm, h]
      rw [hbump, List.filter_cons_of_pos (by simp [h]), List.map_cons, listMax_cons,
        Nat.max_assoc]
    · have hbump : bump f0 kv k = f0 k := by
        unfold bump
        exact if_neg (fun hh => h hh.symm)
      rw [hbump, List.filter_cons_of_neg (by simp [h])]

theorem op_buffer_updates_key (rank : Nat) (op : Op) :
    ∀ kv ∈ op_buffer_updates rank op, kv.1.1 = rank := by
  intro kv hkv
  simp only [op_buffer_updates, List.mem_append] at hkv
  rcases hkv with h | h
  · by_cases hc : op.inst ∈ local_src_insts_mscclpp
    · rw [if_pos hc] at h
      rcases List.mem_cons.mp h with he | hm
      · rw [he]
      · obtain ⟨s, _, he⟩ := List.mem_map.mp hm
        rw [← he]
    · rw [if_neg hc] at h
      cases h
  · by_cases hc : op.inst ∈ local_dst_insts_mscclpp
    · rw [if_pos hc] at h
      rcases List.mem_cons.mp h with he | hm
      · rw [he]
      · by_cases hr : op.inst ≠ .read_reduce_copy_send ∧ op.inst ≠ .reduce_send ∧
            op.inst ≠ .reduce_send_packet
        · rw [if_pos hr] at hm
          obtain ⟨s, _, he⟩ := List.mem_map.mp hm
          rw [← he]
        · rw [if_neg hr] at hm
          cases hm
    · rw [if_neg hc] at h
      cases h

theorem gpu_updates_key (g : Gpu) : ∀ kv ∈ gpu_updates g, kv.1.1 = g.rank := by
  intro kv hkv
  simp only [gpu_updates, List.mem_flatMap] at hkv
  obtain ⟨tb, _, hkv2⟩ := hkv
  obtain ⟨op, _, hkv3⟩ := hkv2
  exact op_buffer_updates_key g.rank op kv hkv3

theorem flatMap_filter_unique (b : Buffer) :
    ∀ (gs : List Gpu), (gs.map (fun g => g.rank)).Nodup →
      ∀ g ∈ gs, ((gs.flatMap gpu_updates).filter (fun kv => kv.1 = (g.rank, b))) =
        (gpu_updates g).filter (fun kv => kv.1 = (g.rank, b)) := by
  intro gs
  induction gs with
  | nil =>
    intro _ g hg
    cases hg
  | cons g0 rest ih =>
    intro hnd g hg
    rw [List.map_cons, List.nodup_cons] at hnd
    rw [List.flatMap_cons, List.filter_append]
    rcases List.mem_cons.mp hg with rfl | hg2
    · have hrest : ((rest.flatMap gpu_updates).filter
          (fun kv => kv.1 = (g.rank, b))) = [] := by
        rw [List.filter_eq_nil_iff]
        intro kv hkv hq
        obtain ⟨g2, hg2, hkv2⟩ := List.mem_flatMap.mp hkv
        have h1 : kv.1.1 = g2.rank := gpu_updates_key g2 kv hkv2
        have h2 : kv.1 = (g.rank, b) := by simpa using hq
        have : g.rank ∈ rest.map (fun x => x.rank) :=
          List.mem_map.mpr ⟨g2, hg2, by rw [← h1, h2]⟩
        exact hnd.1 this
      rw [hrest, List.append_nil]
    · have hg0 : ((gpu_updates g0).filter (fun kv => kv.1 = (g.rank, b))) = [] := by
        rw [List.filter_eq_nil_iff]
        intro kv hkv hq
        have h1 : kv.1.1 = g0.rank := gpu_updates_key g0 kv hkv
        have h2 : kv.1 = (g.rank, b) := by simpa using hq
        have hmem : g.rank ∈ rest.map (fun x => x.rank) :=
          List.mem_map.mpr ⟨g, hg2, rfl⟩
        have heq : g0.rank = g.rank := by rw [← h1, h2]
        rw [← heq] at hmem
        exact hnd.1 hmem
      rw [hg0, List.nil_append]
      exact ih hnd.2 g hg2

theorem filter_key_map_chunks (r : Nat) (b : Buffer) (l : List ChunkRef) :
    (((l.map (fun s => ((r, s.buffer), s.index + s.size))).filter
        (fun kv => kv.1 = (r, b))).map (fun kv => kv.2)) =
      (l.filter (fun s => s.buffer = b)).map (fun s => s.index + s.size) := by
  induction l with
  | nil => rfl
  | cons s l ih =>
    simp only [List.map_cons, List.filter_cons]
    by_cases hb : s.buffer = b
    · rw [if_pos (by simp [hb]), if_pos (by simp [hb]), List.map_cons,
        List.map_cons, ih]
    · rw [if_neg (by simp [hb]), if_neg (by simp [hb]), ih]

theorem op_updates_filter (r : Nat) (b : Buffer) (op : Op) :
    ((op_buffer_updates r op).filter (fun kv => kv.1 = (r, b))).map
        (fun kv => kv.2) = op_required b op := by
  unfold op_buffer_updates op_required
  rw [List.filter_append, List.map_append]
  congr 1
  · by_cases hc : op.inst ∈ local_src_insts_mscclpp
    · rw [if_pos hc, if_pos hc, List.filter_cons]
      by_cases hb : op.src.buffer = b
      · rw [if_pos (by simp [hb]), if_pos hb, List.map_cons, filter_key_map_chunks]
        rfl
      · rw [if_neg (by simp [hb]), if_neg hb, filter_key_map_chunks]
        rfl
    · rw [if_neg hc, if_neg hc]
      rfl
  · by_cases hc : op.inst ∈ local_dst_insts_mscclpp
    · rw [if_pos hc, if_pos hc, List.filter_cons]
      by_cases hr : op.inst ≠ .read_reduce_copy_send ∧ op.inst ≠ .reduce_send ∧
          op.inst ≠ .reduce_send_packet
      · rw [if_pos hr, if_pos hr]
        by_cases hb : op.dst.buffer = b
        · rw [if_pos (by simp [hb]), if_pos hb, List.map_cons, filter_key_map_chunks]
          rfl
        · rw [if_neg (by simp [hb]), if_neg hb, filter_key_map_chunks]
          rfl
      · rw [if_neg hr, if_neg hr]
        by_cases hb : op.dst.buffer = b
        · rw [if_pos (by simp [hb]), if_pos hb, List.map_cons]
          rfl
        · rw [if_neg (by simp [hb]), if_neg hb]
          rfl
    · rw [if_neg hc, if_neg hc]
      rfl

theorem filter_map_flatMap {α β γ : Type} (l : List α) (f : α → List β)
    (q : β → Bool) (m : β → γ) :
    ((l.flatMap f).filter q).map m = l.flatMap (fun a => ((f a).filter q).map m) := by
  induction l with
  | nil => rfl
  | cons a l ih =>
    rw [List.flatMap_cons, List.filter_append, List.map_append, ih, List.flatMap_cons]

theorem flatMap_congr {α β : Type} (l : List α) (f g : α → List β)
    (h : ∀ a ∈ l, f a = g a) : l.flatMap f = l.flatMap g := by
  induction l with
  | nil => rfl
  | cons a l ih =>
    rw [List.flatMap_cons, List.flatMap_cons, h a (List.mem_cons_self a l),
      ih (fun x hx => h x (List.mem_cons_of_mem a hx))]

theorem gpu_updates_filter_map (g : Gpu) (b : Buffer) :
    ((gpu_updates g).filter (fun kv => kv.1 = (g.rank, b))).map (fun kv => kv.2) =
      g.threadblocks.flatMap (fun tb => tb.ops.flatMap (op_required b)) := by
  unfold gpu_updates
  rw [filter_map_flatMap]
  refine flatMap_congr _ _ _ (fun tb _ => ?_)
  rw [filter_map_flatMap]
  exact flatMap_congr _ _ _ (fun op _ => op_updates_filter g.rank b op)

/-- C4: after the usage-scanning part of buffer-size inference (lines 52-77,
before the LL adjustment), every device capacity is the maximum of its
declared value and the largest index + length over the chunk references
named by the claim, provided device ranks are distinct (one device per
rank, as the data model requires). -/
theorem c4_buffer_inference (p : Program)
    (hnd : (p.gpus.map (fun g => g.rank)).Nodup) :
    (infer_buffer_sizes p).gpus = p.gpus.map (fun g =>
      { g with
        input_chunks := max g.input_chunks (required_capacity g .input)
        output_chunks := max g.output_chunks (required_capacity g .output)
        scratch_chunks := max g.scratch_chunks (required_capacity g .scratch) }) := by
  have h1 : (infer_buffer_sizes p).gpus = p.gpus.map (fun g =>
      { g with
        input_chunks := max (buffer_sizes p (g.rank, .input)) g.input_chunks
        output_chunks := max (buffer_sizes p (g.rank, .output)) g.output_chunks
        scratch_chunks := max (buffer_sizes p (g.rank, .scratch)) g.scratch_chunks }) := rfl
  rw [h1]
  refine List.map_congr_left (fun g hg => ?_)
  have hb : ∀ b, buffer_sizes p (g.rank, b) = required_capacity g b := by
    intro b
    unfold buffer_sizes
    rw [foldl_bump_eq, Nat.zero_max]
    rw [show program_updates p = p.gpus.flatMap gpu_updates from rfl]
    rw [flatMap_filter_unique b p.gpus hnd g hg, gpu_updates_filter_map]
    rfl
  rw [hb .input, hb .output, hb .scratch,
    Nat.max_comm (required_capacity g .input) g.input_chunks,
    Nat.max_comm (required_capacity g .output) g.output_chunks,
    Nat.max_comm (required_capacity g .scratch) g.scratch_chunks]

/-- Witness for C4 on a concrete program with distinct ranks. -/
theorem c4_buffer_inference_witness :
    (infer_buffer_sizes P10).gpus = P10.gpus.map (fun g =>
      { g with
        input_chunks := max g.input_chunks (required_capacity g .input)
        output_chunks := max g.output_chunks (required_capacity g .output)
        scratch_chunks := max g.scratch_chunks (required_capacity g .scratch) }) :=
  c4_buffer_inference P10 (by decide)

/-! The closed form of the no-op expansion pass. -/

theorem emitOp_inst (op : Op) (next : Option Op) : (emitOp op next).inst = op.inst := by
  unfold emitOp
  split
  · cases next with
    | none => rfl
    | some n =>
      dsimp only
      split <;> rfl
  · rfl

theorem emitOp_uid (op : Op) (next : Option Op) : (emitOp op next).uid = op.uid := by
  unfold emitOp
  split
  · cases next with
    | none => rfl
    | some n =>
      dsimp only
      split <;> rfl
  · rfl

theorem emitOp_of_not_marker (op : Op) (next : Option Op)
    (h : isMarkerInst op.inst = false) : emitOp op next = op := by
  unfold emitOp
  rw [if_neg (by simp [h])]

theorem not_marker_of_plain (i : Instruction) (hnop : i ≠ .nop)
    (hns : i ∉ insts_no_need_sync_barrier) : isMarkerInst i = false := by
  cases i <;> simp_all [isMarkerInst, insts_no_need_sync_barrier]

theorem marker_is_barrier (i : Instruction) (hm : isMarkerInst i = true)
    (hnop : i ≠ .nop) : i = .barrier := by
  cases i <;> simp_all [isMarkerInst]

theorem barrier_no_sync : Instruction.barrier ∈ insts_no_need_sync_barrier := by
  decide

theorem expand_rev_cons :
    ∀ (l : List Op) (a : Op) (acc : List Op),
      expand_rev (a :: acc) l =
        (expandSpecGo (isMarkerInst a.inst) l).reverse ++ emitOp a l.head? :: acc := by
  intro l
  induction l with
  | nil =>
    intro a acc
    simp [expand_rev, expandSpecGo, emitOp]
  | cons o rest ih =>
    intro a acc
    by_cases hns : o.inst ∈ insts_no_need_sync_barrier
    · have h1 : expand_rev (a :: acc) (o :: rest) = expand_rev (o :: a :: acc) rest := by
        simp [expand_rev, hns]
      rw [h1, ih]
      simp [expandSpecGo, freshMarker, emitOp, hns]
    · cases hm : isMarkerInst a.inst with
      | true =>
        have h1 : expand_rev (a :: acc) (o :: rest) =
            expand_rev
              (o :: { a with depends := a.depends ++ nonBarrierDeps o } :: acc) rest := by
          simp [expand_rev, hns, hm]
        rw [h1, ih]
        simp [expandSpecGo, freshMarker, emitOp, hns, hm]
      | false =>
        by_cases hnd : (nonBarrierDeps o).isEmpty
        · have h1 : expand_rev (a :: acc) (o :: rest) = expand_rev (o :: a :: acc) rest := by
            simp [expand_rev, hns, hm, hnd]
          rw [h1, ih]
          simp [expandSpecGo, freshMarker, emitOp, hns, hm, hnd]
        · have h1 : expand_rev (a :: acc) (o :: rest) =
              expand_rev (o :: mkNop (nonBarrierDeps o) :: a :: acc) rest := by
            simp [expand_rev, hns, hm, hnd]
          rw [h1, ih]
          simp [expandSpecGo, freshMarker, emitOp, hns, hm, hnd]

theorem expand_tb_eq_spec (ops : List Op) : expand_tb ops = expandSpec ops := by
  cases ops with
  | nil => rfl
  | cons o rest =>
    unfold expand_tb expandSpec
    by_cases hns : o.inst ∈ insts_no_need_sync_barrier
    · have h1 : expand_rev [] (o :: rest) = expand_rev (o :: []) rest := by
        simp [expand_rev, hns]
      rw [h1, expand_rev_cons]
      simp [expandSpecGo, freshMarker, hns]
    · by_cases hnd : (nonBarrierDeps o).isEmpty
      · have h1 : expand_rev [] (o :: rest) = expand_rev (o :: []) rest := by
          simp [expand_rev, hns, hnd]
        rw [h1, expand_rev_cons]
        simp [expandSpecGo, freshMarker, hns, hnd]
      · have h1 : expand_rev [] (o :: rest) =
            expand_rev (o :: mkNop (nonBarrierDeps o) :: []) rest := by
          simp [expand_rev, hns, hnd]
        rw [h1, expand_rev_cons]
        simp [expandSpecGo, freshMarker, hns, hnd]

theorem freshMarker_mem (prevM : Bool) (op : Op) (m : Op)
    (hm : m ∈ freshMarker prevM op) : m = mkNop (nonBarrierDeps op) := by
  unfold freshMarker at hm
  split at hm
  · cases hm
  · split at hm
    · cases hm
    · split at hm
      · cases hm
      · exact List.mem_singleton.mp hm

theorem emitOp_depends_mem (op : Op) (next : Option Op) (d : Dep)
    (hd : d ∈ (emitOp op next).depends) :
    d ∈ op.depends ∨
      (isMarkerInst op.inst = true ∧ ∃ n, next = some n ∧ d ∈ nonBarrierDeps n) := by
  unfold emitOp at hd
  split at hd
  case isTrue hM =>
    cases next with
    | none => exact Or.inl hd
    | some n =>
      dsimp only at hd
      split at hd
      · exact Or.inl hd
      · rcases List.mem_append.mp hd with h | h
        · exact Or.inl h
        · exact Or.inr ⟨hM, n, rfl, h⟩
  case isFalse => exact Or.inl hd

theorem getElem?_prefix_cons {α : Type} (F : List α) (a : α) (G : List α) (k : Nat) :
    (F ++ a :: G)[F.length + (k + 1)]? = G[k]? := by
  rw [List.getElem?_append_right (Nat.le_add_right _ _), Nat.add_sub_cancel_left,
    List.getElem?_cons_succ]

theorem go_marker_count_zero :
    ∀ (l : List Op) (prevM : Bool) (d : Dep),
      (∀ o ∈ l, d ∉ o.depends) →
      markerCount d (expandSpecGo prevM l) = 0 := by
  intro l
  induction l with
  | nil =>
    intro prevM d _
    rfl
  | cons o0 rest ih =>
    intro prevM d hnd
    unfold markerCount at ih ⊢
    show (expandSpecGo prevM (o0 :: rest)).countP _ = 0
    rw [show expandSpecGo prevM (o0 :: rest) = freshMarker prevM o0 ++
      emitOp o0 rest.head? :: expandSpecGo (isMarkerInst o0.inst) rest from rfl]
    rw [List.countP_append, List.countP_cons]
    have h1 : (freshMarker prevM o0).countP
        (fun op => isMarkerInst op.inst && decide (d ∈ op.depends)) = 0 := by
      rw [List.countP_eq_zero]
      intro m hm
      rw [freshMarker_mem prevM o0 m hm]
      have hx : d ∉ nonBarrierDeps o0 := fun hx =>
        hnd o0 (List.mem_cons_self o0 rest) ((List.mem_filter.mp hx).1)
      simp [mkNop, hx]
    have h2 : (isMarkerInst (emitOp o0 rest.head?).inst &&
        decide (d ∈ (emitOp o0 rest.head?).depends)) = false := by
      cases hdd : decide (d ∈ (emitOp o0 rest.head?).depends) with
      | false => simp [hdd]
      | true =>
        exfalso
        rcases emitOp_depends_mem o0 rest.head? d (of_decide_eq_true hdd) with
          h | ⟨_, n, hn, hdn⟩
        · exact hnd o0 (List.mem_cons_self o0 rest) h
        · have hnmem : n ∈ rest := by
            cases rest with
            | nil => cases hn
            | cons a as =>
              have ha : a = n := Option.some.inj hn
              rw [← ha]
              exact List.mem_cons_self a as
          exact hnd n (List.mem_cons_of_mem o0 hnmem) ((List.mem_filter.mp hdn).1)
    have h3 := ih (isMarkerInst o0.inst) d
      (fun x hx => hnd x (List.mem_cons_of_mem o0 hx))
    rw [h1, h2, h3]
    simp

theorem go_marker_before :
    ∀ (l : List Op) (prevM : Bool),
      (∀ o ∈ l, o.inst ≠ .nop) →
      ∀ (j : Nat) (o : Op), l[j]? = some o →
        (j = 0 → prevM = false) →
        o.inst ∉ insts_no_need_sync_barrier →
        ∀ d ∈ o.depends, d.inst ≠ .barrier →
          ∃ (k : Nat) (m : Op),
            (expandSpecGo prevM l)[k]? = some m ∧ isMarkerInst m.inst = true ∧
            d ∈ m.depends ∧ (expandSpecGo prevM l)[k + 1]? = some o := by
  intro l
  induction l with
  | nil =>
    intro prevM _ j o hj
    simp at hj
  | cons o0 rest ih =>
    intro prevM hnop j o hj h0 hns d hd hdb
    cases j with
    | zero =>
      rw [List.getElem?_cons_zero] at hj
      have ho : o0 = o := Option.some.inj hj
      subst ho
      have hpf : prevM = false := h0 rfl
      subst hpf
      have hdm : d ∈ nonBarrierDeps o0 :=
        List.mem_filter.mpr ⟨hd, by simpa using hdb⟩
      have hE : (nonBarrierDeps o0).isEmpty = false := by
        cases hE : (nonBarrierDeps o0).isEmpty with
        | false => rfl
        | true =>
          rw [List.isEmpty_iff] at hE
          rw [hE] at hdm
          cases hdm
      have hfm : freshMarker false o0 = [mkNop (nonBarrierDeps o0)] := by
        simp [freshMarker, hns, hE]
      have hnm : isMarkerInst o0.inst = false :=
        not_marker_of_plain o0.inst (hnop o0 (List.mem_cons_self o0 rest)) hns
      refine ⟨0, mkNop (nonBarrierDeps o0), ?_, rfl, hdm, ?_⟩
      · rw [show expandSpecGo false (o0 :: rest) = freshMarker false o0 ++
          emitOp o0 rest.head? :: expandSpecGo (isMarkerInst o0.inst) rest from rfl, hfm,
          List.singleton_append, List.getElem?_cons_zero]
      · rw [show expandSpecGo false (o0 :: rest) = freshMarker false o0 ++
          emitOp o0 rest.head? :: expandSpecGo (isMarkerInst o0.inst) rest from rfl, hfm,
          emitOp_of_not_marker o0 rest.head? hnm, List.singleton_append]
        show (mkNop (nonBarrierDeps o0) :: o0 ::
          expandSpecGo (isMarkerInst o0.inst) rest)[1]? = some o0
        rw [List.getElem?_cons_succ, List.getElem?_cons_zero]
    | succ j2 =>
      rw [List.getElem?_cons_succ] at hj
      by_cases hM : isMarkerInst o0.inst = true
      · have hbar : o0.inst = .barrier :=
          marker_is_barrier o0.inst hM (hnop o0 (List.mem_cons_self o0 rest))
        have hns0 : o0.inst ∈ insts_no_need_sync_barrier := by
          rw [hbar]
          exact barrier_no_sync
        have hfm : freshMarker prevM o0 = [] := by
          simp [freshMarker, hns0]
        cases j2 with
        | zero =>
          cases rest with
          | nil => simp at hj
          | cons o1 rest2 =>
            rw [List.getElem?_cons_zero] at hj
            have ho : o1 = o := Option.some.inj hj
            subst ho
            have hnm1 : isMarkerInst o1.inst = false :=
              not_marker_of_plain o1.inst
                (hnop o1 (List.mem_cons_of_mem o0 (List.mem_cons_self o1 rest2))) hns
            refine ⟨0, emitOp o0 (some o1), ?_, ?_, ?_, ?_⟩
            · rw [show expandSpecGo prevM (o0 :: o1 :: rest2) =
                freshMarker prevM o0 ++ emitOp o0 (o1 :: rest2).head? ::
                  expandSpecGo (isMarkerInst o0.inst) (o1 :: rest2) from rfl, hfm,
                List.nil_append, List.getElem?_cons_zero]
              rfl
            · rw [emitOp_inst]
              exact hM
            · unfold emitOp
              rw [if_pos (by simp [hM])]
              dsimp only
              rw [if_neg hns]
              exact List.mem_append.mpr
                (Or.inr (List.mem_filter.mpr ⟨hd, by simpa using hdb⟩))
            · rw [show expandSpecGo prevM (o0 :: o1 :: rest2) =
                freshMarker prevM o0 ++ emitOp o0 (o1 :: rest2).head? ::
                  expandSpecGo (isMarkerInst o0.inst) (o1 :: rest2) from rfl, hfm,
                List.nil_append]
              show (emitOp o0 (o1 :: rest2).head? ::
                expandSpecGo (isMarkerInst o0.inst) (o1 :: rest2))[1]? = some o1
              rw [List.getElem?_cons_succ]
              rw [show expandSpecGo (isMarkerInst o0.inst) (o1 :: rest2) =
                freshMarker (isMarkerInst o0.inst) o1 ++ emitOp o1 rest2.head? ::
                  expandSpecGo (isMarkerInst o1.inst) rest2 from rfl]
              have hfm1 : freshMarker (isMarkerInst o0.inst) o1 = [] := by
                rw [hM]
                simp [freshMarker, hns]
              rw [hfm1, List.nil_append, List.getElem?_cons_zero,
                emitOp_of_not_marker o1 rest2.head? hnm1]
        | succ j3 =>
          obtain ⟨k, m, h1, h2, h3, h4⟩ := ih (isMarkerInst o0.inst)
            (fun x hx => hnop x (List.mem_cons_of_mem o0 hx)) (j3 + 1) o hj
            (by omega) hns d hd hdb
          refine ⟨k + 1, m, ?_, h2, h3, ?_⟩
          · rw [show expandSpecGo prevM (o0 :: rest) = freshMarker prevM o0 ++
              emitOp o0 rest.head? :: expandSpecGo (isMarkerInst o0.inst) rest from rfl,
              hfm, List.nil_append, List.getElem?_cons_succ]
            exact h1
          · rw [show expandSpecGo prevM (o0 :: rest) = freshMarker prevM o0 ++
              emitOp o0 rest.head? :: expandSpecGo (isMarkerInst o0.inst) rest from rfl,
              hfm, List.nil_append, List.getElem?_cons_succ]
            exact h4
      · have hM2 : isMarkerInst o0.inst = false := by
          cases hmm : isMarkerInst o0.inst with
          | false => rfl
          | true => exact absurd hmm hM
        obtain ⟨k, m, h1, h2, h3, h4⟩ := ih (isMarkerInst o0.inst)
          (fun x hx => hnop x (List.mem_cons_of_mem o0 hx)) j2 o hj
          (fun _ => hM2) hns d hd hdb
        refine ⟨(freshMarker prevM o0).length + (k + 1), m, ?_, h2, h3, ?_⟩
        · rw [show expandSpecGo prevM (o0 :: rest) = freshMarker prevM o0 ++
            emitOp o0 rest.head? :: expandSpecGo (isMarkerInst o0.inst) rest from rfl,
            getElem?_prefix_cons]
          exact h1
        · rw [show expandSpecGo prevM (o0 :: rest) = freshMarker prevM o0 ++
            emitOp o0 rest.head? :: expandSpecGo (isMarkerInst o0.inst) rest from rfl,
            Nat.add_assoc, getElem?_prefix_cons]
          exact h4

theorem nonBarrierDeps_not_empty (o0 : Op) (d : Dep)
    (hdm : d ∈ nonBarrierDeps o0) : (nonBarrierDeps o0).isEmpty = false := by
  cases hE : (nonBarrierDeps o0).isEmpty with
  | false => rfl
  | true =>
    rw [List.isEmpty_iff] at hE
    rw [hE] at hdm
    cases hdm

theorem go_marker_count_one :
    ∀ (l : List Op) (prevM : Bool) (j : Nat) (o : Op) (d : Dep),
      (∀ x ∈ l, x.inst ≠ .nop) →
      List.Pairwise (fun a b => ∀ e ∈ a.depends, e ∉ b.depends) l →
      l[j]? = some o → (j = 0 → prevM = false) →
      o.inst ∉ insts_no_need_sync_barrier →
      d ∈ o.depends → d.inst ≠ .barrier →
      markerCount d (expandSpecGo prevM l) = 1 := by
  intro l
  induction l with
  | nil =>
    intro prevM j o d _ _ hj
    simp at hj
  | cons o0 rest ih =>
    intro prevM j o d hnop hpw hj h0 hns hd hdb
    have hpw1 : ∀ b ∈ rest, ∀ e ∈ o0.depends, e ∉ b.depends :=
      (List.pairwise_cons.mp hpw).1
    have hpw2 : List.Pairwise (fun a b => ∀ e ∈ a.depends, e ∉ b.depends) rest :=
      (List.pairwise_cons.mp hpw).2
    unfold markerCount
    rw [show expandSpecGo prevM (o0 :: rest) = freshMarker prevM o0 ++
      emitOp o0 rest.head? :: expandSpecGo (isMarkerInst o0.inst) rest from rfl]
    rw [List.countP_append, List.countP_cons]
    cases j with
    | zero =>
      rw [List.getElem?_cons_zero] at hj
      have ho : o0 = o := Option.some.inj hj
      subst ho
      have hpf : prevM = false := h0 rfl
      subst hpf
      have hdm : d ∈ nonBarrierDeps o0 := List.mem_filter.mpr ⟨hd, by simpa using hdb⟩
      have hE := nonBarrierDeps_not_empty o0 d hdm
      have hfm : freshMarker false o0 = [mkNop (nonBarrierDeps o0)] := by
        simp [freshMarker, hns, hE]
      have hnm : isMarkerInst o0.inst = false :=
        not_marker_of_plain o0.inst (hnop o0 (List.mem_cons_self o0 rest)) hns
      have hc1 : (freshMarker false o0).countP
          (fun op => isMarkerInst op.inst && decide (d ∈ op.depends)) = 1 := by
        rw [hfm]
        simp [List.countP_cons, mkNop, hdm, isMarkerInst]
      have hc2 : (isMarkerInst (emitOp o0 rest.head?).inst &&
          decide (d ∈ (emitOp o0 rest.head?).depends)) = false := by
        rw [emitOp_inst, hnm]
        simp
      have hc3 : (expandSpecGo (isMarkerInst o0.inst) rest).countP
          (fun op => isMarkerInst op.inst && decide (d ∈ op.depends)) = 0 := by
        have hz := go_marker_count_zero rest (isMarkerInst o0.inst) d
          (fun x hx hdx => hpw1 x hx d hd hdx)
        unfold markerCount at hz
        exact hz
      rw [hc1, hc2, hc3]
      simp
    | succ j2 =>
      rw [List.getElem?_cons_succ] at hj
      have hdno0 : d ∉ o0.depends := by
        intro hx
        exact hpw1 o (List.getElem?_mem hj) d hx hd
      by_cases hM : isMarkerInst o0.inst = true
      · have hbar := marker_is_barrier o0.inst hM (hnop o0 (List.mem_cons_self o0 rest))
        have hns0 : o0.inst ∈ insts_no_need_sync_barrier := by
          rw [hbar]
          exact barrier_no_sync
        have hfm : freshMarker prevM o0 = [] := by
          simp [freshMarker, hns0]
        have hc1 : (freshMarker prevM o0).countP
            (fun op => isMarkerInst op.inst && decide (d ∈ op.depends)) = 0 := by
          rw [hfm]
          rfl
        cases j2 with
        | zero =>
          cases rest with
          | nil => simp at hj
          | cons o1 rest2 =>
            rw [List.getElem?_cons_zero] at hj
            have ho : o1 = o := Option.some.inj hj
            subst ho
            have hdm : d ∈ nonBarrierDeps o1 :=
              List.mem_filter.mpr ⟨hd, by simpa using hdb⟩
            have hc2 : (isMarkerInst (emitOp o0 (o1 :: rest2).head?).inst &&
                decide (d ∈ (emitOp o0 (o1 :: rest2).head?).depends)) = true := by
              rw [emitOp_inst]
              have hmem : d ∈ (emitOp o0 (some o1)).depends := by
                unfold emitOp
                rw [if_pos (by simp [hM])]
                dsimp only
                rw [if_neg hns]
                exact List.mem_append.mpr (Or.inr hdm)
              simp [hM, hmem]
            have hc3 : (expandSpecGo (isMarkerInst o0.inst) (o1 :: rest2)).countP
                (fun op => isMarkerInst op.inst && decide (d ∈ op.depends)) = 0 := by
              rw [hM]
              rw [show expandSpecGo true (o1 :: rest2) = freshMarker true o1 ++
                emitOp o1 rest2.head? :: expandSpecGo (isMarkerInst o1.inst) rest2 from rfl]
              rw [List.countP_append, List.countP_cons]
              have ha : freshMarker true o1 = [] := by
                simp [freshMarker]
              have hb : (isMarkerInst (emitOp o1 rest2.head?).inst &&
                  decide (d ∈ (emitOp o1 rest2.head?).depends)) = false := by
                rw [emitOp_inst, not_marker_of_plain o1.inst
                  (hnop o1 (List.mem_cons_of_mem o0 (List.mem_cons_self o1 rest2))) hns]
                simp
              have hcz : (expandSpecGo (isMarkerInst o1.inst) rest2).countP
                  (fun op => isMarkerInst op.inst && decide (d ∈ op.depends)) = 0 := by
                have hz := go_marker_count_zero rest2 (isMarkerInst o1.inst) d
                  (fun x hx hdx => (List.pairwise_cons.mp hpw2).1 x hx d hd hdx)
                unfold markerCount at hz
                exact hz
              rw [ha, hb, hcz]
              rfl
            rw [hc1, hc2, hc3]
            simp
        | succ j3 =>
          have hc2 : (isMarkerInst (emitOp o0 rest.head?).inst &&
              decide (d ∈ (emitOp o0 rest.head?).depends)) = false := by
            cases hdd : decide (d ∈ (emitOp o0 rest.head?).depends) with
            | false => simp [hdd]
            | true =>
              exfalso
              rcases emitOp_depends_mem o0 rest.head? d (of_decide_eq_true hdd) with
                h | ⟨_, n, hn, hdn⟩
              · exact hdno0 h
              · cases rest with
                | nil => cases hn
                | cons o1 rest2 =>
                  have hn1 : o1 = n := Option.some.inj hn
                  rw [← hn1] at hdn
                  rw [List.getElem?_cons_succ] at hj
                  exact (List.pairwise_cons.mp hpw2).1 o (List.getElem?_mem hj) d
                    ((List.mem_filter.mp hdn).1) hd
          have hc3 := ih (isMarkerInst o0.inst) (j3 + 1) o d
            (fun x hx => hnop x (List.mem_cons_of_mem o0 hx)) hpw2 hj
            (by omega) hns hd hdb
          unfold markerCount at hc3
          rw [hc1, hc2, hc3]
          simp
      · have hM2 : isMarkerInst o0.inst = false := by
          cases hmm : isMarkerInst o0.inst with
          | false => rfl
          | true => exact absurd hmm hM
        have hc1 : (freshMarker prevM o0).countP
            (fun op => isMarkerInst op.inst && decide (d ∈ op.depends)) = 0 := by
          rw [List.countP_eq_zero]
          intro m hm
          rw [freshMarker_mem prevM o0 m hm]
          have hx : d ∉ nonBarrierDeps o0 := fun hx =>
            hdno0 ((List.mem_filter.mp hx).1)
          simp [mkNop, hx]
        have hc2 : (isMarkerInst (emitOp o0 rest.head?).inst &&
            decide (d ∈ (emitOp o0 rest.head?).depends)) = false := by
          rw [emitOp_inst, hM2]
          simp
        have hc3 := ih (isMarkerInst o0.inst) j2 o d
          (fun x hx => hnop x (List.mem_cons_of_mem o0 hx)) hpw2 hj
          (fun _ => hM2) hns hd hdb
        unfold markerCount at hc3
        rw [hc1, hc2, hc3]
        simp

theorem filter_wait_deps_tb_inst (ops : List Op) :
    ∀ o ∈ filter_wait_deps_tb ops, ∃ o0 ∈ ops, o.inst = o0.inst := by
  intro o ho
  obtain ⟨o0, ho0, he⟩ := List.mem_map.mp ho
  refine ⟨o0, ho0, ?_⟩
  rw [← he]
  split <;> rfl

theorem filter_redundant_aux_inst :
    ∀ (ops : List Op) (running : List Dep) (o : Op),
      o ∈ filter_redundant_aux running ops → ∃ o0 ∈ ops, o.inst = o0.inst := by
  intro ops
  induction ops with
  | nil =>
    intro running o ho
    cases ho
  | cons op rest ih =>
    intro running o ho
    rcases List.mem_cons.mp ho with he | h2
    · exact ⟨op, List.mem_cons_self op rest, by rw [he]⟩
    · obtain ⟨o0, h1, h2b⟩ := ih _ o h2
      exact ⟨o0, List.mem_cons_of_mem op h1, h2b⟩

/-- C1 amended: after the simplification passes, in an input threadblock
free of authored no-ops, every surviving dependency of an op outside the
no-sync set whose target is not a barrier is carried by exactly one no-op
or barrier marker, and that marker stands immediately before the op in the
final issue order.  Dependencies of packet-format and barrier ops are passed
through unchanged and get no marker (see the counterexample). -/
theorem c1_sync_lowering_amended (ops : List Op)
    (hnop : ∀ o ∈ ops, o.inst ≠ .nop) :
    ∀ (j : Nat) (o : Op),
      (filter_redundant_aux [] (filter_wait_deps_tb ops))[j]? = some o →
      o.inst ∉ insts_no_need_sync_barrier →
      ∀ d ∈ o.depends, d.inst ≠ .barrier →
        ∃ (k : Nat) (m : Op),
          (expand_tb (filter_redundant_aux [] (filter_wait_deps_tb ops)))[k]? = some m ∧
          isMarkerInst m.inst = true ∧ d ∈ m.depends ∧
          (expand_tb (filter_redundant_aux [] (filter_wait_deps_tb ops)))[k + 1]? = some o ∧
          markerCount d (expand_tb (filter_redundant_aux [] (filter_wait_deps_tb ops))) = 1 := by
  intro j o hj hns d hd hdb
  have hnop2 : ∀ x ∈ filter_redundant_aux [] (filter_wait_deps_tb ops),
      x.inst ≠ .nop := by
    intro x hx
    obtain ⟨o0, h1, h2⟩ := filter_redundant_aux_inst (filter_wait_deps_tb ops) [] x hx
    obtain ⟨o1, h3, h4⟩ := filter_wait_deps_tb_inst ops o0 h1
    rw [h2, h4]
    exact hnop o1 h3
  rw [expand_tb_eq_spec]
  obtain ⟨k, m, h1, h2, h3, h4⟩ :=
    go_marker_before _ false hnop2 j o hj (fun _ => rfl) hns d hd hdb
  have h5 := go_marker_count_one _ false j o d hnop2
    (filter_redundant_aux_pairwise (filter_wait_deps_tb ops) []) hj
    (fun _ => rfl) hns hd hdb
  exact ⟨k, m, h1, h2, h3, h4, h5⟩

/-- Witness for the amended C1 on a concrete threadblock. -/
theorem c1_sync_lowering_amended_witness :
    ∃ (k : Nat) (m : Op),
      (expand_tb (filter_redundant_aux [] (filter_wait_deps_tb tbB8.ops)))[k]? = some m ∧
      isMarkerInst m.inst = true ∧
      ({ uid := 2, inst := .put } : Dep) ∈ m.depends ∧
      (expand_tb (filter_redundant_aux [] (filter_wait_deps_tb tbB8.ops)))[k + 1]? =
        some ((filter_redundant_aux [] (filter_wait_deps_tb tbB8.ops)).headD (mkNop [])) ∧
      markerCount { uid := 2, inst := .put }
        (expand_tb (filter_redundant_aux [] (filter_wait_deps_tb tbB8.ops))) = 1 :=
  c1_sync_lowering_amended tbB8.ops (by decide) 0
    ((filter_redundant_aux [] (filter_wait_deps_tb tbB8.ops)).headD (mkNop []))
    (by decide) (by decide) { uid := 2, inst := .put } (by decide) (by decide)

/-- Counterexample to C1 as stated: the dependency of the packet-format copy
in `c1ops` survives both simplification passes, yet after the
synchronization-lowering stage no no-op or barrier marker carries it — the
op is passed through unchanged with the dependency only in its own list. -/
theorem c1_counterexample :
    expand_tb (filter_redundant_aux [] (filter_wait_deps_tb c1ops)) = c1ops ∧
    (filter_redundant_aux [] (filter_wait_deps_tb c1ops)).flatMap
        (fun o => o.depends) = [{ uid := 1, inst := .put }] ∧
    markerCount { uid := 1, inst := .put }
      (expand_tb (filter_redundant_aux [] (filter_wait_deps_tb c1ops))) = 0 := by
  refine ⟨by decide, by decide, by decide⟩

theorem go_deps_backward :
    ∀ (l : List Op) (prevM : Bool) (done : List Op),
      (∀ o ∈ l, o.inst ≠ .nop) →
      (∀ (j : Nat) (o : Op), l[j]? = some o → ∀ d ∈ o.depends,
        (∃ (i : Nat) (t : Op), done[i]? = some t ∧ t.uid = d.uid ∧ t.inst = d.inst) ∨
        (∃ (i : Nat) (t : Op), i < j ∧ l[i]? = some t ∧ t.uid = d.uid ∧
          t.inst = d.inst)) →
      ∀ (j : Nat) (op : Op), done.length ≤ j →
        (done ++ expandSpecGo prevM l)[j]? = some op →
        ∀ d ∈ op.depends, ∃ (i : Nat) (t : Op), i < j ∧
          (done ++ expandSpecGo prevM l)[i]? = some t ∧ t.uid = d.uid := by
  intro l
  induction l with
  | nil =>
    intro prevM done _ _ j op hlen hj
    exfalso
    rw [show expandSpecGo prevM [] = [] from rfl, List.append_nil,
      List.getElem?_eq_none hlen] at hj
    cases hj
  | cons o0 rest ih =>
    intro prevM done hnop H2 j op hlen hj d hd
    have hsplit : done ++ expandSpecGo prevM (o0 :: rest) =
        ((done ++ freshMarker prevM o0) ++ [emitOp o0 rest.head?]) ++
          expandSpecGo (isMarkerInst o0.inst) rest := by
      rw [show expandSpecGo prevM (o0 :: rest) = freshMarker prevM o0 ++
        emitOp o0 rest.head? :: expandSpecGo (isMarkerInst o0.inst) rest from rfl]
      simp
    have hdonelem : ∀ (i : Nat) (t : Op), done[i]? = some t →
        (done ++ expandSpecGo prevM (o0 :: rest))[i]? = some t := by
      intro i t ht
      obtain ⟨hb, _⟩ := List.getElem?_eq_some_iff.mp ht
      rw [List.getElem?_append_left (by omega)]
      exact ht
    have hH20 : ∀ e ∈ o0.depends, ∃ (i : Nat) (t : Op), i < done.length ∧
        (done ++ expandSpecGo prevM (o0 :: rest))[i]? = some t ∧ t.uid = e.uid := by
      intro e he
      rcases H2 0 o0 (by rw [List.getElem?_cons_zero]) e he with
        ⟨i, t, h1, h2, h3⟩ | ⟨i, t, hi, _⟩
      · obtain ⟨hb, _⟩ := List.getElem?_eq_some_iff.mp h1
        exact ⟨i, t, hb, hdonelem i t h1, h2⟩
      · omega
    by_cases hcase : j < done.length + (freshMarker prevM o0).length + 1
    · by_cases hcase2 : j < (done ++ freshMarker prevM o0).length
      · -- op sits inside the fresh-marker block
        have hjf : (freshMarker prevM o0)[j - done.length]? = some op := by
          rw [hsplit, List.getElem?_append_left (by simp; simp at hcase2; omega),
            List.getElem?_append_left hcase2,
            List.getElem?_append_right hlen] at hj
          exact hj
        have hop : op = mkNop (nonBarrierDeps o0) :=
          freshMarker_mem prevM o0 op (List.getElem?_mem hjf)
        have hd0 : d ∈ o0.depends := by
          rw [hop] at hd
          exact (List.mem_filter.mp hd).1
        obtain ⟨i, t, hb, h1, h2⟩ := hH20 d hd0
        exact ⟨i, t, by omega, h1, h2⟩
      · -- op is the emitted head op
        have hjeq : j = (done ++ freshMarker prevM o0).length := by
          simp at hcase2 ⊢
          simp [List.length_append] at hcase
          omega
        have hop : op = emitOp o0 rest.head? := by
          rw [hsplit, List.getElem?_append_left
            (by simp [hjeq, List.length_append]; try omega), hjeq,
            List.getElem?_concat_length] at hj
          exact (Option.some.inj hj).symm
        rcases emitOp_depends_mem o0 rest.head? d (by rw [← hop]; exact hd) with
          h | ⟨hM, n, hn, hdn⟩
        · obtain ⟨i, t, hb, h1, h2⟩ := hH20 d h
          exact ⟨i, t, by omega, h1, h2⟩
        · have hn0 : rest[0]? = some n := by
            cases rest with
            | nil => cases hn
            | cons a as =>
              rw [List.getElem?_cons_zero]
              exact hn
          have hdb : d.inst ≠ .barrier := by
            have := (List.mem_filter.mp hdn).2
            simpa using this
          rcases H2 1 n (by rw [List.getElem?_cons_succ]; exact hn0) d
            ((List.mem_filter.mp hdn).1) with
            ⟨i, t, h1, h2, h3⟩ | ⟨i, t, hi, h1, h2, h3⟩
          · obtain ⟨hb, _⟩ := List.getElem?_eq_some_iff.mp h1
            exact ⟨i, t, by omega, hdonelem i t h1, h2⟩
          · exfalso
            have hi0 : i = 0 := by omega
            subst hi0
            rw [List.getElem?_cons_zero] at h1
            have ht : o0 = t := Option.some.inj h1
            have hbar : o0.inst = .barrier :=
              marker_is_barrier o0.inst hM (hnop o0 (List.mem_cons_self o0 rest))
            rw [← ht, hbar] at h3
            exact hdb h3.symm
    · -- op lies in the recursive tail
      have H2r : ∀ (j2 : Nat) (o : Op), rest[j2]? = some o → ∀ e ∈ o.depends,
          (∃ (i : Nat) (t : Op),
            ((done ++ freshMarker prevM o0) ++ [emitOp o0 rest.head?])[i]? = some t ∧
            t.uid = e.uid ∧ t.inst = e.inst) ∨
          (∃ (i : Nat) (t : Op), i < j2 ∧ rest[i]? = some t ∧ t.uid = e.uid ∧
            t.inst = e.inst) := by
        intro j2 o hjo e he
        rcases H2 (j2 + 1) o (by rw [List.getElem?_cons_succ]; exact hjo) e he with
          ⟨i, t, h1, h2, h3⟩ | ⟨i, t, hi, h1, h2, h3⟩
        · left
          obtain ⟨hb, _⟩ := List.getElem?_eq_some_iff.mp h1
          refine ⟨i, t, ?_, h2, h3⟩
          rw [List.getElem?_append_left (by simp; omega),
            List.getElem?_append_left (by omega)]
          exact h1
        · cases i with
          | zero =>
            left
            rw [List.getElem?_cons_zero] at h1
            have ht : o0 = t := Option.some.inj h1
            refine ⟨(done ++ freshMarker prevM o0).length, emitOp o0 rest.head?,
              List.getElem?_concat_length _ _, ?_, ?_⟩
            · rw [emitOp_uid, ht]
              exact h2
            · rw [emitOp_inst, ht]
              exact h3
          | succ i2 =>
            right
            rw [List.getElem?_cons_succ] at h1
            exact ⟨i2, t, by omega, h1, h2, h3⟩
      have hlen2 : ((done ++ freshMarker prevM o0) ++ [emitOp o0 rest.head?]).length ≤ j := by
        simp [List.length_append]
        simp [List.length_append] at hcase
        omega
      obtain ⟨i, t, hi, h1, h2⟩ := ih (isMarkerInst o0.inst)
        ((done ++ freshMarker prevM o0) ++ [emitOp o0 rest.head?])
        (fun x hx => hnop x (List.mem_cons_of_mem o0 hx)) H2r j op hlen2
        (by rw [← hsplit]; exact hj) d hd
      refine ⟨i, t, hi, ?_, h2⟩
      rw [hsplit]
      exact h1

theorem fra_getElem :
    ∀ (ops : List Op) (running : List Dep) (i : Nat),
      (ops[i]? = none ∧ (filter_redundant_aux running ops)[i]? = none) ∨
      (∃ (o o2 : Op), ops[i]? = some o ∧
        (filter_redundant_aux running ops)[i]? = some o2 ∧
        o2.uid = o.uid ∧ o2.inst = o.inst ∧ ∀ d ∈ o2.depends, d ∈ o.depends) := by
  intro ops
  induction ops with
  | nil =>
    intro running i
    exact Or.inl ⟨List.getElem?_nil, List.getElem?_nil⟩
  | cons op rest ih =>
    intro running i
    have hunf : filter_redundant_aux running (op :: rest) =
        { op with depends := op.depends.filter (fun dep => dep ∉ running) } ::
          filter_redundant_aux
            (running ++ op.depends.filter (fun dep => dep ∉ running)) rest := rfl
    cases i with
    | zero =>
      right
      rw [hunf]
      refine ⟨op, _, List.getElem?_cons_zero, List.getElem?_cons_zero, rfl, rfl, ?_⟩
      intro d hd
      exact (List.mem_filter.mp hd).1
    | succ n =>
      rw [hunf, List.getElem?_cons_succ, List.getElem?_cons_succ]
      exact ih _ n

theorem fwd_getElem (ops : List Op) (i : Nat) :
    (ops[i]? = none ∧ (filter_wait_deps_tb ops)[i]? = none) ∨
    (∃ (o o2 : Op), ops[i]? = some o ∧ (filter_wait_deps_tb ops)[i]? = some o2 ∧
      o2.uid = o.uid ∧ o2.inst = o.inst ∧ ∀ d ∈ o2.depends, d ∈ o.depends) := by
  cases h : ops[i]? with
  | none =>
    left
    refine ⟨rfl, ?_⟩
    unfold filter_wait_deps_tb
    rw [List.getElem?_map, h]
    rfl
  | some o =>
    right
    have h2 : (filter_wait_deps_tb ops)[i]? = some (if o.inst = .wait then
        { o with depends := o.depends.filter (fun dep => dep.inst ≠ .signal) }
      else o) := by
      unfold filter_wait_deps_tb
      rw [List.getElem?_map, h]
      rfl
    refine ⟨o, _, rfl, h2, ?_, ?_, ?_⟩
    · split <;> rfl
    · split <;> rfl
    · intro d hd
      by_cases hw : o.inst = .wait
      · rw [if_pos hw] at hd
        exact (List.mem_filter.mp hd).1
      · rw [if_neg hw] at hd
        exact hd

theorem simplify_getElem (ops : List Op) (i : Nat) :
    (ops[i]? = none ∧
      (filter_redundant_aux [] (filter_wait_deps_tb ops))[i]? = none) ∨
    (∃ (o o2 : Op), ops[i]? = some o ∧
      (filter_redundant_aux [] (filter_wait_deps_tb ops))[i]? = some o2 ∧
      o2.uid = o.uid ∧ o2.inst = o.inst ∧ ∀ d ∈ o2.depends, d ∈ o.depends) := by
  rcases fwd_getElem ops i with ⟨h1, h2⟩ | ⟨o, o2, h1, h2, h3, h4, h5⟩
  · rcases fra_getElem (filter_wait_deps_tb ops) [] i with ⟨_, hb⟩ | ⟨x, _, hx, _⟩
    · exact Or.inl ⟨h1, hb⟩
    · rw [h2] at hx
      cases hx
  · rcases fra_getElem (filter_wait_deps_tb ops) [] i with ⟨hx, _⟩ |
      ⟨o3, o4, hx, h6, h7, h8, h9⟩
    · rw [h2] at hx
      cases hx
    · right
      rw [h2] at hx
      have ho : o2 = o3 := Option.some.inj hx
      refine ⟨o, o4, h1, h6, ?_, ?_, ?_⟩
      · rw [h7, ← ho, h3]
      · rw [h8, ← ho, h4]
      · intro d hd
        exact h5 d (ho ▸ h9 d hd)

theorem renumber_tb_getElem (tb : Threadblock) (i : Nat) (o : Op)
    (h : tb.ops[i]? = some o) :
    (renumber_tb tb).ops[i]? =
      some { o with step := Int.ofNat i, tb := tb.id } := by
  unfold renumber_tb
  dsimp only
  rw [List.getElem?_map, List.getElem?_enum, h]
  rfl

theorem renumber_tb_getElem_none (tb : Threadblock) (i : Nat)
    (h : tb.ops[i]? = none) : (renumber_tb tb).ops[i]? = none := by
  unfold renumber_tb
  dsimp only
  rw [List.getElem?_map, List.getElem?_enum, h]
  rfl

/-- C8 (amended): after the dependency-simplification passes, the no-op
expansion and the renumbering, every dependency reference of every op in a
threadblock resolves strictly backward within that threadblock, provided
every dependency of the input op list already pointed at an earlier op of
the SAME threadblock: the reference target sits at an earlier index and so
carries a strictly smaller renumbered step.  For dependencies that cross
threadblocks the property fails (see the counterexample): the referenced
op is renumbered independently in its own threadblock and may end up with
an equal or later step than the dependent op. -/
theorem c8_backward_steps_amended (tbid : Int) (ops : List Op)
    (hnop : ∀ o ∈ ops, o.inst ≠ .nop)
    (hback : ∀ (j : Nat) (o : Op), ops[j]? = some o → ∀ d ∈ o.depends,
      ∃ (i : Nat) (t : Op), i < j ∧ ops[i]? = some t ∧ t.uid = d.uid ∧
        t.inst = d.inst) :
    ∀ (j : Nat) (op : Op),
      (renumber_tb (mkTb tbid [] (expand_tb (filter_redundant_aux []
        (filter_wait_deps_tb ops))))).ops[j]? = some op →
      ∀ d ∈ op.depends, ∃ (i : Nat) (t : Op), i < j ∧
        (renumber_tb (mkTb tbid [] (expand_tb (filter_redundant_aux []
          (filter_wait_deps_tb ops))))).ops[i]? = some t ∧
        t.uid = d.uid ∧ t.step < op.step := by
  intro j op hj d hd
  have hnop2 : ∀ x ∈ filter_redundant_aux [] (filter_wait_deps_tb ops),
      x.inst ≠ .nop := by
    intro x hx
    obtain ⟨o0, h1, h2⟩ := filter_redundant_aux_inst (filter_wait_deps_tb ops) [] x hx
    obtain ⟨o1, h3, h4⟩ := filter_wait_deps_tb_inst ops o0 h1
    rw [h2, h4]
    exact hnop o1 h3
  have hH2 : ∀ (j2 : Nat) (o : Op),
      (filter_redundant_aux [] (filter_wait_deps_tb ops))[j2]? = some o →
      ∀ e ∈ o.depends,
        (∃ (i : Nat) (t : Op), ([] : List Op)[i]? = some t ∧ t.uid = e.uid ∧
          t.inst = e.inst) ∨
        (∃ (i : Nat) (t : Op), i < j2 ∧
          (filter_redundant_aux [] (filter_wait_deps_tb ops))[i]? = some t ∧
          t.uid = e.uid ∧ t.inst = e.inst) := by
    intro j2 o hjo e he
    right
    rcases simplify_getElem ops j2 with ⟨_, h2⟩ | ⟨o0, o2, h1, h2, _, _, h5⟩
    · rw [hjo] at h2
      cases h2
    · rw [hjo] at h2
      have ho : o = o2 := Option.some.inj h2
      obtain ⟨i, t, hi, hti, htu, htinst⟩ := hback j2 o0 h1 e (h5 e (ho ▸ he))
      rcases simplify_getElem ops i with ⟨h6, _⟩ | ⟨t0, t2, h6, h7, h8, h9, _⟩
      · rw [hti] at h6
        cases h6
      · rw [hti] at h6
        have ht0 : t = t0 := Option.some.inj h6
        refine ⟨i, t2, hi, h7, ?_, ?_⟩
        · rw [h8, ← ht0, htu]
        · rw [h9, ← ht0, htinst]
  cases hT : (expand_tb (filter_redundant_aux [] (filter_wait_deps_tb ops)))[j]? with
  | none =>
    exfalso
    rw [renumber_tb_getElem_none (mkTb tbid [] (expand_tb (filter_redundant_aux []
      (filter_wait_deps_tb ops)))) j hT] at hj
    cases hj
  | some o =>
    have hre := renumber_tb_getElem (mkTb tbid [] (expand_tb (filter_redundant_aux []
      (filter_wait_deps_tb ops)))) j o hT
    rw [hre] at hj
    have hop := Option.some.inj hj
    have hdo : d ∈ o.depends := by
      rw [← hop] at hd
      exact hd
    have hspec : (expandSpecGo false (filter_redundant_aux []
        (filter_wait_deps_tb ops)))[j]? = some o := by
      rw [expand_tb_eq_spec] at hT
      exact hT
    obtain ⟨i, t, hi, hti, htu⟩ := go_deps_backward (filter_redundant_aux []
      (filter_wait_deps_tb ops)) false [] hnop2 hH2 j o (Nat.zero_le j) hspec d hdo
    have htT : (expand_tb (filter_redundant_aux []
        (filter_wait_deps_tb ops)))[i]? = some t := by
      rw [expand_tb_eq_spec]
      exact hti
    have hre2 := renumber_tb_getElem (mkTb tbid [] (expand_tb (filter_redundant_aux []
      (filter_wait_deps_tb ops)))) i t htT
    refine ⟨i, _, hi, hre2, htu, ?_⟩
    rw [← hop]
    show Int.ofNat i < Int.ofNat j
    exact Int.ofNat_lt.mpr hi

/-- C8 witness: in a threadblock of two puts where the second depends on
the first, after simplification, expansion and renumbering the dependency
of the final op (at step 2) resolves to an op at an earlier index with a
strictly smaller step. -/
theorem c8_backward_steps_amended_witness :
    ∃ (i : Nat) (t : Op), i < 2 ∧
      (renumber_tb (mkTb 0 [] (expand_tb (filter_redundant_aux []
        (filter_wait_deps_tb c8wOps))))).ops[i]? = some t ∧
      t.uid = 1 ∧ t.step < 2 := by
  have hback : ∀ (j : Nat) (o : Op), c8wOps[j]? = some o → ∀ d ∈ o.depends,
      ∃ (i : Nat) (t : Op), i < j ∧ c8wOps[i]? = some t ∧ t.uid = d.uid ∧
        t.inst = d.inst := by
    intro j o hj d hd
    cases j with
    | zero =>
      have h0 : c8wOps[0]? = some (mkOp 1 .put (ck 0 .input 0 1) (ck 1 .output 0 1)
          [] [] [] .sm) := by decide
      rw [h0] at hj
      have ho : o = mkOp 1 .put (ck 0 .input 0 1) (ck 1 .output 0 1) [] [] [] .sm :=
        (Option.some.inj hj).symm
      subst ho
      simp [mkOp] at hd
    | succ n =>
      cases n with
      | zero =>
        have h1 : c8wOps[1]? = some (mkOp 2 .put (ck 0 .input 1 1) (ck 1 .output 1 1)
            [] [] [{ uid := 1, inst := .put }] .sm) := by decide
        rw [h1] at hj
        have ho : o = mkOp 2 .put (ck 0 .input 1 1) (ck 1 .output 1 1) [] []
            [{ uid := 1, inst := .put }] .sm := (Option.some.inj hj).symm
        subst ho
        have hde : d = { uid := 1, inst := .put } := by
          simp [mkOp] at hd
          exact hd
        subst hde
        exact ⟨0, mkOp 1 .put (ck 0 .input 0 1) (ck 1 .output 0 1) [] [] [] .sm,
          by omega, by decide, rfl, rfl⟩
      | succ m =>
        have hl : c8wOps.length = 2 := rfl
        rw [List.getElem?_eq_none (by omega)] at hj
        cases hj
  have hop : (renumber_tb (mkTb 0 [] (expand_tb (filter_redundant_aux []
      (filter_wait_deps_tb c8wOps))))).ops[2]? =
      some { mkOp 2 .put (ck 0 .input 1 1) (ck 1 .output 1 1) [] []
        [{ uid := 1, inst := .put }] .sm with step := 2, tb := 0 } := by decide
  obtain ⟨i, t, hi, ht, hu, hs⟩ := c8_backward_steps_amended 0 c8wOps (by decide)
    hback 2 _ hop { uid := 1, inst := .put } (by decide)
  exact ⟨i, t, hi, ht, hu, hs⟩

/-- C8 counterexample: in the lowered form of `P8`, whose only dependency
crosses threadblocks, the synthesized no-op at step 0 of threadblock 1
references the op with identity 2, which renumbering placed at step 1 of
threadblock 0 — an equal-or-later step, so the unrestricted claim fails. -/
theorem c8_counterexample :
    ((Q8.gpus.headD (mkGpu 0 [])).threadblocks.map
      (fun tb => tb.ops.map (fun op => (op.inst, op.tb, op.step, op.depends)))) =
      [[(.put, 0, 0, []), (.put, 0, 1, [])],
       [(.nop, 1, 0, [{ uid := 2, inst := .put }]),
        (.put, 1, 1, [{ uid := 2, inst := .put }])]] ∧
    dep_env Q8 2 = (0, 1) ∧ ¬((1 : Int) < 0) :=
  ⟨by decide, by decide, by decide⟩

end MscclppIR
